import Mathlib

/-!
# Integration-test runner (`integration-tests/main.go`)

A shallow embedding of the orchestration code of the runner: the log-watch
registry and the line-delivery loop, the session retry loop, the failure
handler `must`, the cleanup callback and the crash watcher.

Conventions of the embedding:
* a Go pointer that may be nil is an `Option`;
* a Go slice is a backing array together with a length (`Slice`);
* library calls whose result the code only branches on (regexp matching,
  webdriver calls, process wait) are inputs of the model.
-/

namespace Itch

/-! ## Log watches and the line-delivery loop -/

/-- A value of type `*logWatch`: `addr` is the identity of the pointer, `re` the
source text of the compiled regular expression.  The channel `c` (capacity 1)
belongs to the watch; what was sent on it is recorded in the loop state. -/
structure LogWatch where
  addr : Nat
  re : String
deriving DecidableEq, Repr

/-- The slice variable `logWatches`: the backing array (its length is the
capacity; `none` is a nil pointer) and the length of the slice. -/
structure Slice where
  arr : List (Option LogWatch)
  len : Nat
deriving DecidableEq, Repr

/-- The nil slice, the value of `var logWatches []*logWatch`. -/
def Slice.empty : Slice := ⟨[], 0⟩

/-- The elements `logWatches[0:len]`. -/
def Slice.toList (s : Slice) : List (Option LogWatch) := s.arr.take s.len

/-- Go `append(logWatches, lw)`: in place when there is spare capacity, otherwise
into a fresh zeroed array of doubled capacity. -/
def Slice.append (s : Slice) (lw : LogWatch) : Slice :=
  if s.len < s.arr.length then
    ⟨s.arr.set s.len (some lw), s.len + 1⟩
  else
    ⟨s.arr.take s.len ++ some lw :: List.replicate (2 * s.arr.length - (s.len + 1)) none,
      s.len + 1⟩

/-- The closure `makeLogWatch`: allocates the watch (the allocator picks `addr`),
appends it to `logWatches` and returns it. -/
def makeLogWatch (logWatches : Slice) (addr : Nat) (re : String) : LogWatch × Slice :=
  let lw : LogWatch := ⟨addr, re⟩
  (lw, logWatches.append lw)

/-- The three statements that remove index `i`:
`copy(logWatches[i:], logWatches[i+1:])`, `logWatches[len-1] = nil`,
`logWatches = logWatches[:len-1]`.  `none` is a run-time panic (slice bounds or
index out of range). -/
def Slice.removeAt (s : Slice) (i : Nat) : Option Slice :=
  if i + 1 ≤ s.len ∧ s.len ≤ s.arr.length then
    let n := s.len - (i + 1)
    let moved := (s.arr.drop (i + 1)).take n
    let arr1 := s.arr.take i ++ moved ++ s.arr.drop (i + n)
    some ⟨arr1.set (s.len - 1) none, s.len - 1⟩
  else none

/-- How the goroutine of the tail loop stands. -/
inductive Status where
  | running
  | panicked
  | blocked
deriving DecidableEq, Repr

/-- State of the goroutine that tails the log: the captured variable
`logWatches`, every send `lw.c <- true` made so far (with the number of the
line being processed), the lines printed by `logger.Print`, the number of
lines fully processed, and the status. -/
structure TailState where
  logWatches : Slice
  sent : List (Nat × LogWatch)
  printed : List String
  lineNo : Nat
  status : Status
deriving DecidableEq, Repr

/-- Number of values sent on the channel of the watch at address `a`. -/
def TailState.sentCount (s : TailState) (a : Nat) : Nat :=
  (s.sent.filter (fun e => e.2.addr = a)).length

/-- One iteration of `for i, lw := range logWatches` with index `i`.
`lw` is read from the backing array shared with the range copy; `lw.re` on a
nil pointer panics; a send on a full channel (capacity 1, nobody receiving)
blocks. -/
def rangeBody (matchString : String → String → Bool) (text : String) (i : Nat)
    (s : TailState) : TailState :=
  match s.status with
  | .running =>
    match s.logWatches.arr.getD i none with
    | none => { s with status := .panicked }
    | some lw =>
      if matchString lw.re text then
        if 1 ≤ s.sentCount lw.addr then { s with status := .blocked }
        else
          match s.logWatches.removeAt i with
          | none => { s with sent := s.sent ++ [(s.lineNo, lw)], status := .panicked }
          | some sl => { s with sent := s.sent ++ [(s.lineNo, lw)], logWatches := sl }
      else s
  | _ => s

/-- The inner `for ... range` over the indices `is`. -/
def rangeLoop (matchString : String → String → Bool) (text : String) :
    List Nat → TailState → TailState
  | [], s => s
  | i :: is, s => rangeLoop matchString text is (rangeBody matchString text i s)

/-- The states after each iteration of the inner loop. -/
def rangeTrace (matchString : String → String → Bool) (text : String) :
    List Nat → TailState → List TailState
  | [], _ => []
  | i :: is, s =>
    rangeBody matchString text i s :: rangeTrace matchString text is (rangeBody matchString text i s)

/-- Body of `for line := range t.Lines`: the range expression `logWatches` is
evaluated once (its length fixes the indices), then the line is printed. -/
def deliverLine (matchString : String → String → Bool) (s : TailState) (text : String) :
    TailState :=
  let s1 := rangeLoop matchString text (List.range s.logWatches.len) s
  match s1.status with
  | .running => { s1 with printed := s1.printed ++ [text], lineNo := s1.lineNo + 1 }
  | _ => s1

/-- The tail loop over the lines produced so far. -/
def tailLoop (matchString : String → String → Bool) : List String → TailState → TailState
  | [], s => s
  | text :: rest, s => tailLoop matchString rest (deliverLine matchString s text)

/-- Every state the tail loop goes through: after each iteration of the inner
loop and after each line. -/
def tailTrace (matchString : String → String → Bool) : List String → TailState → List TailState
  | [], _ => []
  | text :: rest, s =>
    rangeTrace matchString text (List.range s.logWatches.len) s ++
      deliverLine matchString s text :: tailTrace matchString rest (deliverLine matchString s text)

/-- Registers the watches `ws` in order with `makeLogWatch`, starting from the nil slice. -/
def registerAll (ws : List LogWatch) : Slice :=
  ws.foldl (fun sl w => (makeLogWatch sl w.addr w.re).2) Slice.empty

/-- State of the tail goroutine when it starts, with `logWatches` as given. -/
def TailState.init (sl : Slice) : TailState :=
  { logWatches := sl, sent := [], printed := [], lineNo := 0, status := .running }

/-- A matcher for literal patterns (no metacharacters): `re` occurs in `text`. -/
def literalMatch (re text : String) : Bool :=
  text.toList.tails.any (fun t => re.toList.isPrefixOf t)

/-! ## The runner, the failure handler and the main flow -/

/-- The closure values stored in `runner.cleanup` and registered with
`gocleanup.Register`.  The program builds one such closure (lines 172-184). -/
inductive CleanupFunc where
  | driverCleanup
deriving DecidableEq, Repr

/-- The fields of `runner` that the orchestration code branches on or assigns.
`driver` is the interface value `gs.WebDriver` (nil until line 217). -/
structure Runner where
  driver : Option String
  cleanup : Option CleanupFunc
  readyForScreenshot : Bool
deriving DecidableEq, Repr

/-- What the process does that can be observed from outside, in order. -/
inductive Event where
  | fatal (err : String)
  | failedIn
  | browserLog
  | browserLogPrinted
  | browserLogFailed (e : String)
  | screenshot (name : String)
  | screenshotFailed (e : String)
  | cleanupCalled
  | closeWindow
  | cancel
  | wait (err : Option String)
  | driverStarted
  | tryNo (n : Nat)
  | createSession
  | attemptFailed (e : String)
  | gaveUp
  | deleteSession
  | sawPattern (re : String)
  | flow (name : String)
  | crashed (e : String)
  | succeeded
deriving DecidableEq, Repr

/-- How a call ends: it returns a value, the process exits through `os.Exit`,
or a run-time panic unwinds (nothing recovers, so the process dies with
status 2). -/
inductive Outcome (α : Type) where
  | ret (a : α)
  | exit (code : Nat)
  | panic
deriving DecidableEq, Repr

/-- State of the process seen by the main flow: the global `r`, the callbacks
registered with `gocleanup`, the variable `logWatches`, whether
`chromeDriverCancel` was called, and the events so far. -/
structure Proc where
  r : Option Runner
  cleanups : List CleanupFunc
  logWatches : Slice
  cancelled : Bool
  trace : List Event
deriving DecidableEq, Repr

/-- The process at start: `r` is nil, nothing is registered. -/
def Proc.start : Proc :=
  { r := none, cleanups := [], logWatches := Slice.empty, cancelled := false, trace := [] }

/-- Appends an event. -/
def Proc.emit (p : Proc) (e : Event) : Proc := { p with trace := p.trace ++ [e] }

/-- Which case of the `select` in `WaitWithTimeout` the run time takes. -/
inductive SelectCase where
  | signal
  | timer
deriving DecidableEq, Repr

/-- Results of the calls into the operating system, the libraries and the files
of the repository that are not part of `main.go`. -/
structure Env where
  apiKey : String
  removeTmpErr : Option String
  removeScreenshotsErr : Option String
  getwdErr : Option String
  noBundle : Bool
  bundleFirst : Bool
  downloadErr : Option String
  bundleErr : Option String
  watchAddr : Nat
  startErr : Option String
  electronErr : Option String
  newDriverErr : Option String
  createSessionErr : Nat → Option String
  initialScreenshotErr : Nat → Option String
  setupSelect : SelectCase
  flowErr : String → Option String
  finalScreenshotErr : Option String
  browserLogErr : Option String
  failureScreenshotErr : Option String
  cleanupWaitErr : Option String
  fmtDuration : Nat → String

/-- Sequencing: what follows runs only when the call returned. -/
def andThen {α β : Type} (x : Outcome α × Proc) (f : α → Proc → Outcome β × Proc) :
    Outcome β × Proc :=
  match x with
  | (.ret a, p) => f a p
  | (.exit c, p) => (.exit c, p)
  | (.panic, p) => (.panic, p)

/-- Go `defer`: the deferred call runs when the body returns and while a panic
unwinds; it does not run when the process exits through `os.Exit`. -/
def withDefer {α : Type} (deferred : Proc → Outcome Unit × Proc) (body : Outcome α × Proc) :
    Outcome α × Proc :=
  match body with
  | (.ret a, p) =>
    match deferred p with
    | (.ret _, p1) => (.ret a, p1)
    | (.exit c, p1) => (.exit c, p1)
    | (.panic, p1) => (.panic, p1)
  | (.exit c, p) => (.exit c, p)
  | (.panic, p) =>
    match deferred p with
    | (.exit c, p1) => (.exit c, p1)
    | (_, p1) => (.panic, p1)

/-- The closure assigned to `r.cleanup` (lines 172-184).  `r.logf` dereferences
the global `r`; `r.driver.CloseWindow()` is a method call on an interface value
and panics when `r.driver` is nil. -/
def cleanup (env : Env) (p : Proc) : Outcome Unit × Proc :=
  match p.r with
  | none => (.panic, p)
  | some r =>
    let p1 := p.emit .cleanupCalled
    match r.driver with
    | none => (.panic, p1)
    | some _ =>
      let p2 := p1.emit .closeWindow
      let p3 := { p2.emit .cancel with cancelled := true }
      (.ret (), p3.emit (.wait env.cleanupWaitErr))

/-- Calls a registered callback. -/
def CleanupFunc.run (env : Env) : CleanupFunc → Proc → Outcome Unit × Proc
  | .driverCleanup, p => cleanup env p

/-- Runs the callbacks in registration order. -/
def runCleanups (env : Env) : List CleanupFunc → Proc → Outcome Unit × Proc
  | [], p => (.ret (), p)
  | f :: fs, p => andThen (f.run env p) (fun _ p1 => runCleanups env fs p1)

/-- Library `gocleanup.Register`. -/
def gocleanupRegister (f : CleanupFunc) (p : Proc) : Proc :=
  { p with cleanups := p.cleanups ++ [f] }

/-- Library `gocleanup.Exit(status)`: runs every registered callback, then
`os.Exit(status)`; deferred calls do not run. -/
def gocleanupExit (env : Env) (status : Nat) (p : Proc) : Outcome Unit × Proc :=
  andThen (runCleanups env p.cleanups p) (fun _ p1 => (.exit status, p1))

/-- The function `must` (lines 293-324). -/
def must (env : Env) (err : Option String) (p : Proc) : Outcome Unit × Proc :=
  match err with
  | none => (.ret (), p)
  | some e =>
    let p1 := p.emit (.fatal e)
    match p1.r with
    | none => (.ret (), p1)
    | some r =>
      let p2 := p1.emit .failedIn
      let p5 :=
        match r.driver with
        | none => p2
        | some _ =>
          let p3 := p2.emit .browserLog
          let p4 :=
            match env.browserLogErr with
            | none => p3.emit .browserLogPrinted
            | some le => p3.emit (.browserLogFailed le)
          let p4 := p4.emit (.screenshot e)
          match env.failureScreenshotErr with
          | none => p4
          | some se => p4.emit (.screenshotFailed se)
      gocleanupExit env 1 p5

/-- The method `WaitWithTimeout` (lines 61-69), with the case of the `select`
given.  The error text is that of the `Errorf` call; `%s` of the duration is
`env.fmtDuration`. -/
def WaitWithTimeout (env : Env) (lw : LogWatch) (timeout : Nat) (sel : SelectCase) (p : Proc) :
    Outcome (Option String) × Proc :=
  match sel with
  | .signal =>
    match p.r with
    | none => (.panic, p)
    | some _ => (.ret none, p.emit (.sawPattern lw.re))
  | .timer =>
    (.ret (some ("Timed out after " ++ env.fmtDuration timeout ++ " waiting for pattern (" ++
      lw.re ++ ")")), p)

/-- Assigns `r.readyForScreenshot`. -/
def Runner.setReady (r : Runner) (b : Bool) : Runner := { r with readyForScreenshot := b }

/-- The closure `tryCreateSession` (lines 219-235), for the attempt number `n`.
The result is the returned error (`none` is nil). -/
def tryCreateSession (env : Env) (n : Nat) (p : Proc) : Outcome (Option String) × Proc :=
  let p1 := p.emit .createSession
  match env.createSessionErr n with
  | some e => (.ret (some e), p1)
  | none =>
    match p1.r with
    | none => (.panic, p1)
    | some r =>
      let p2 := { p1 with r := some (r.setReady true) }
      let p3 := p2.emit (.screenshot "initial")
      match env.initialScreenshotErr n with
      | some e => (.ret (some e), { p3 with r := some (r.setReady false) })
      | none => (.ret none, p3)

/-- The loop `for tries := 1; tries <= 5; tries++` (lines 238-247) over the values
of `tries` still to come; the result is `hasSession`. -/
def sessionLoop (env : Env) : List Nat → Proc → Outcome Bool × Proc
  | [], p => (.ret false, p)
  | tries :: rest, p =>
    andThen (tryCreateSession env tries (p.emit (.tryNo tries))) (fun err p1 =>
      match err with
      | none => (.ret true, p1)
      | some e => sessionLoop env rest (p1.emit (.attemptFailed e)))

/-- The values `tries` takes: 1 to 5. -/
def sessionTries : List Nat := [1, 2, 3, 4, 5]

/-- Lines 237-252: the retry loop and the exit when no session was created. -/
def acquireSession (env : Env) (p : Proc) : Outcome Unit × Proc :=
  andThen (sessionLoop env sessionTries p) (fun hasSession p1 =>
    if hasSession then (.ret (), p1) else gocleanupExit env 1 (p1.emit .gaveUp))

/-- Modelled from the spec: the phases `prepareFlow`, `navigationFlow`,
`installFlow` and `loginFlow` are defined in other files; a phase runs its
scripted interactions and passes an error to the failure handler `must`. -/
def runFlow (env : Env) (name : String) (p : Proc) : Outcome Unit × Proc :=
  must env (env.flowErr name) (p.emit (.flow name))

/-- The values received from the channel `done`, in order (lines 97-113). -/
def prepResults (env : Env) : List (Option String) :=
  if env.noBundle then [env.downloadErr]
  else if env.bundleFirst then [env.bundleErr, env.downloadErr]
  else [env.downloadErr, env.bundleErr]

/-- The loop `must(<-done)` over the received values. -/
def mustAll (env : Env) : List (Option String) → Proc → Outcome Unit × Proc
  | [], p => (.ret (), p)
  | e :: es, p => andThen (must env e p) (fun _ p1 => mustAll env es p1)

/-- Lines 254-275 of `doMain`: what runs once a session exists. -/
def doMainSession (env : Env) (setupWatch : LogWatch) (p : Proc) :
    Outcome (Option String) × Proc :=
  withDefer (fun q => (.ret (), q.emit .deleteSession))
    (andThen (WaitWithTimeout env setupWatch 60000000000 env.setupSelect p) fun werr p1 =>
      andThen (must env werr p1) fun _ p2 =>
      andThen (runFlow env "prepare" p2) fun _ p3 =>
      andThen (runFlow env "navigation" p3) fun _ p4 =>
      andThen (runFlow env "install" p4) fun _ p5 =>
      andThen (runFlow env "login" p5) fun _ p6 =>
        let p7 := (p6.emit .succeeded).emit (.screenshot "final")
        match env.finalScreenshotErr with
        | none => (.ret none, p7)
        | some e => (.ret none, p7.emit (.screenshotFailed e)))

/-- Lines 189-275 of `doMain`: what runs after `defer r.cleanup()` and
`gocleanup.Register(r.cleanup)`. -/
def doMainRegistered (env : Env) (setupWatch : LogWatch) (p : Proc) :
    Outcome (Option String) × Proc :=
  match env.electronErr with
  | some e => (.ret (some e), p)
  | none =>
    match env.newDriverErr with
    | some e => (.ret (some e), p)
    | none =>
      match p.r with
      | none => (.panic, p)
      | some r =>
        let p1 := { p with r := some { r with driver := some "http://127.0.0.1:9515" } }
        andThen (acquireSession env p1) (fun _ p2 => doMainSession env setupWatch p2)

/-- The function `doMain` (lines 71-276); the result is the returned error. -/
def doMain (env : Env) (p : Proc) : Outcome (Option String) × Proc :=
  if env.apiKey = "" then
    (.ret (some "API key not given via environment, stopping here"), p)
  else
    let p1 := { p with r := some { driver := none, cleanup := none, readyForScreenshot := false } }
    andThen (must env env.removeTmpErr p1) (fun _ p2 =>
    andThen (must env env.removeScreenshotsErr p2) (fun _ p3 =>
    match env.getwdErr with
    | some e => (.ret (some e), p3)
    | none =>
      andThen (mustAll env (prepResults env) p3) (fun _ p4 =>
      let (setupWatch, lws) := makeLogWatch p4.logWatches env.watchAddr "Setup done"
      let p5 := { p4 with logWatches := lws }
      andThen (must env env.startErr p5) (fun _ p6 =>
      let p7 := p6.emit .driverStarted
      match p7.r with
      | none => (.panic, p7)
      | some r =>
        let p8 := { p7 with r := some { r with cleanup := some .driverCleanup } }
        let p9 := gocleanupRegister .driverCleanup p8
        withDefer (CleanupFunc.run env .driverCleanup) (doMainRegistered env setupWatch p9)))))

/-- The function `main`: `must(doMain())`.  When `must` returns, `main` returns
and the process ends with status 0. -/
def main (env : Env) : Outcome Unit × Proc :=
  andThen (doMain env Proc.start) (fun err p => must env err p)

/-- Exit status of the process: 0 when `main` returns, the argument of
`os.Exit`, 2 after a panic. -/
def exitStatus {α : Type} : Outcome α → Nat
  | .ret _ => 0
  | .exit c => c
  | .panic => 2

/-- The goroutine of lines 164-170, given the result of `r.chromeDriverCmd.Wait()`. -/
def crashWatcher (env : Env) (waitErr : Option String) (p : Proc) : Outcome Unit × Proc :=
  match waitErr with
  | none => (.ret (), p)
  | some e => gocleanupExit env 1 (p.emit (.crashed e))

/-- Number of calls of the cleanup callback so far. -/
def Proc.cleanupCalls (p : Proc) : Nat := p.trace.count .cleanupCalled

/-- Number of calls of `driver.CreateSession()` so far. -/
def Proc.attempts (p : Proc) : Nat := p.trace.count .createSession

/-- The try numbers logged so far by "Creating a webdriver session (try #%d)". -/
def Proc.triesLogged (p : Proc) : List Nat :=
  p.trace.filterMap (fun e => match e with | .tryNo n => some n | _ => none)

/-- The attempt number `n` succeeds: the session is created and the initial
screenshot is taken. -/
def Env.attemptOk (env : Env) (n : Nat) : Bool :=
  (env.createSessionErr n).isNone && (env.initialScreenshotErr n).isNone

/-- An environment in which every call succeeds. -/
def Env.allGood : Env :=
  { apiKey := "key", removeTmpErr := none, removeScreenshotsErr := none, getwdErr := none,
    noBundle := false, bundleFirst := false, downloadErr := none, bundleErr := none,
    watchAddr := 1, startErr := none, electronErr := none, newDriverErr := none,
    createSessionErr := fun _ => none, initialScreenshotErr := fun _ => none,
    setupSelect := .signal, flowErr := fun _ => none, finalScreenshotErr := none,
    browserLogErr := none, failureScreenshotErr := none, cleanupWaitErr := none,
    fmtDuration := fun n => toString n ++ "ns" }

/-- The process as `doMain` has it from line 217 on: `r` set, the driver
assigned, the cleanup callback stored and registered, the setup watch made. -/
def Proc.registered : Proc :=
  { r := some { driver := some "http://127.0.0.1:9515", cleanup := some .driverCleanup,
                readyForScreenshot := false },
    cleanups := [.driverCleanup],
    logWatches := (makeLogWatch Slice.empty 1 "Setup done").2,
    cancelled := false,
    trace := [.driverStarted] }

/-- An environment in which the first two session attempts are refused. -/
def Env.twoRefusals : Env :=
  { Env.allGood with createSessionErr := fun n => if n < 3 then some "refused" else none }

/-- An environment in which `node` cannot be run to locate electron (line 190). -/
def Env.noElectron : Env :=
  { Env.allGood with electronErr := some "exec: node: executable file not found" }

/-! ## Invariants used in the proofs -/

/-- The slice `s` holds exactly the watches `act`, and every slot of the backing
array past its length is nil. -/
def Slice.Holds (s : Slice) (act : List LogWatch) : Prop :=
  ∃ k, s.arr = act.map some ++ List.replicate k none ∧ s.len = act.length

/-- Invariant of the tail loop: the slice holds the watches `act`, whose
addresses are distinct; no watch of `act` was ever signalled; no channel was
sent to twice; the goroutine is not blocked on a send. -/
structure TailState.Inv (s : TailState) (act : List LogWatch) : Prop where
  holds : s.logWatches.Holds act
  nodup : (act.map LogWatch.addr).Nodup
  fresh : ∀ w ∈ act, s.sentCount w.addr = 0
  once : ∀ a, s.sentCount a ≤ 1
  notBlocked : s.status ≠ .blocked

/-- The send log only grows. -/
def SentGrows (t t' : TailState) : Prop := t.sent <+: t'.sent

/-- The state from line 217 on: the global `r` is set, its driver is assigned,
and the cleanup callback is the one registered callback. -/
def Armed (p : Proc) : Prop :=
  ∃ r d, p.r = some r ∧ r.driver = some d ∧ p.cleanups = [.driverCleanup]

/-- Accounting of the cleanup callback for a call started with `n` calls made:
either the call returned a value satisfying `Q` without calling the callback,
leaving the state armed, or it ended the process through `os.Exit` after
exactly one more call. -/
def Accounted {α : Type} (Q : α → Prop) (n : Nat) (x : Outcome α × Proc) : Prop :=
  (∃ a, x.1 = .ret a ∧ Q a ∧ Armed x.2 ∧ x.2.cleanupCalls = n) ∨
  (∃ c, x.1 = .exit c ∧ x.2.cleanupCalls = n + 1)

end Itch

/-! ## Theorems -/

namespace Itch

theorem Slice.Holds.toList_eq {s : Slice} {act : List LogWatch} (h : s.Holds act) :
    s.toList = act.map some := by
  obtain ⟨k, ha, hl⟩ := h
  simp [Slice.toList, ha, hl]

theorem Slice.Holds.getD_eq {s : Slice} {act : List LogWatch} (h : s.Holds act) (i : Nat) :
    s.arr.getD i none = act[i]? := by
  obtain ⟨k, ha, hl⟩ := h
  rw [List.getD_eq_getElem?_getD, ha]
  by_cases hi : i < act.length
  · rw [List.getElem?_append_left (by simpa using hi)]
    simp [hi]
  · rw [List.getElem?_append_right (by simpa using hi)]
    have : act[i]? = none := by simp; omega
    rw [this]
    simp only [List.getElem?_replicate]
    split <;> rfl

theorem Slice.Holds.removeAt {s : Slice} {act : List LogWatch} (h : s.Holds act) {i : Nat}
    (hi : i < act.length) : ∃ sl, s.removeAt i = some sl ∧ sl.Holds (act.eraseIdx i) := by
  obtain ⟨k, ha, hl⟩ := h
  have hlen : s.arr.length = act.length + k := by simp [ha]
  have hr : s.removeAt i = some ⟨(s.arr.take i ++ (s.arr.drop (i + 1)).take (s.len - (i + 1)) ++
      s.arr.drop (i + (s.len - (i + 1)))).set (s.len - 1) none, s.len - 1⟩ := by
    unfold Slice.removeAt
    rw [if_pos ⟨by omega, by omega⟩]
  refine ⟨_, hr, k + 1, ?_, ?_⟩
  · simp only
    apply List.ext_getElem?
    intro j
    simp only [List.getElem?_set, List.getElem?_append, List.getElem?_take, List.getElem?_drop,
      List.length_append, List.length_take, List.length_drop, List.length_set, List.length_map,
      List.getElem?_map, List.getElem?_eraseIdx, List.length_eraseIdx, List.getElem?_replicate,
      List.length_replicate, ha, hl]
    have e1 : min i (act.length + k) = i := by omega
    have e2 : min (act.length - (i + 1)) (act.length + k - (i + 1)) = act.length - (i + 1) := by
      omega
    simp only [e1, e2, hi, if_true]
    split_ifs <;> first | rfl | (exfalso; omega) | (congr 2; omega)
  · simp [hl, List.length_eraseIdx, hi]

theorem Slice.Holds.append {s : Slice} {act : List LogWatch} (h : s.Holds act) (w : LogWatch) :
    (s.append w).Holds (act ++ [w]) := by
  obtain ⟨k, ha, hl⟩ := h
  have hlen : s.arr.length = act.length + k := by simp [ha]
  unfold Slice.append
  split
  · rename_i hlt
    refine ⟨k - 1, ?_, by simp [hl]⟩
    obtain ⟨k', rfl⟩ : ∃ k', k = k' + 1 := ⟨k - 1, by omega⟩
    simp only [ha, hl]
    rw [List.set_append_right _ _ (by simp)]
    simp [List.replicate_succ]
  · rename_i hge
    have hk : k = 0 := by omega
    subst hk
    refine ⟨2 * s.arr.length - (s.len + 1), ?_, by simp [hl]⟩
    simp [ha, hl]

theorem registerAll_holds_aux (ws : List LogWatch) :
    ∀ (sl : Slice) (act : List LogWatch), sl.Holds act →
      (ws.foldl (fun sl w => (makeLogWatch sl w.addr w.re).2) sl).Holds (act ++ ws) := by
  induction ws with
  | nil => intro sl act h; simpa using h
  | cons w ws ih =>
    intro sl act h
    simp only [List.foldl_cons]
    have := ih _ _ (h.append ⟨w.addr, w.re⟩)
    simpa [makeLogWatch] using this

theorem registerAll_holds (ws : List LogWatch) : (registerAll ws).Holds ws := by
  have := registerAll_holds_aux ws Slice.empty [] ⟨0, rfl, rfl⟩
  simpa [registerAll] using this

theorem sentCount_snoc (s : TailState) (n : Nat) (lw : LogWatch) (sl : Slice) (st : Status)
    (a : Nat) :
    TailState.sentCount { s with sent := s.sent ++ [(n, lw)], logWatches := sl, status := st } a =
      s.sentCount a + if lw.addr = a then 1 else 0 := by
  simp only [TailState.sentCount, List.filter_append, List.length_append]
  by_cases h : lw.addr = a <;> simp [List.filter_cons, h]

theorem addr_ne_of_mem_eraseIdx {act : List LogWatch} (hnd : (act.map LogWatch.addr).Nodup)
    {i : Nat} {lw w : LogWatch} (hi : act[i]? = some lw) (hw : w ∈ act.eraseIdx i) :
    lw.addr ≠ w.addr := by
  obtain ⟨j, hji, hj⟩ := List.mem_eraseIdx_iff_getElem?.mp hw
  intro he
  have h1 : (act.map LogWatch.addr)[i]? = some lw.addr := by simp [hi]
  have h2 : (act.map LogWatch.addr)[j]? = some w.addr := by simp [hj]
  have hlt : i < (act.map LogWatch.addr).length := by
    rcases List.getElem?_eq_some_iff.mp h1 with ⟨h, _⟩
    exact h
  exact hji (List.getElem?_inj hlt hnd (by rw [h1, h2, he])).symm

/-- What one iteration does, in terms of the list of active watches. -/
theorem rangeBody_spec (ms : String → String → Bool) (text : String) (i : Nat)
    {s : TailState} {act : List LogWatch} (h : s.Inv act) (hrun : s.status = .running) :
    (act[i]? = none ∧ rangeBody ms text i s = { s with status := .panicked }) ∨
    (∃ lw, act[i]? = some lw ∧ ms lw.re text = false ∧ rangeBody ms text i s = s) ∨
    (∃ lw sl, act[i]? = some lw ∧ ms lw.re text = true ∧ sl.Holds (act.eraseIdx i) ∧
      rangeBody ms text i s = { s with sent := s.sent ++ [(s.lineNo, lw)], logWatches := sl }) := by
  unfold rangeBody
  rw [hrun]
  simp only
  rw [h.holds.getD_eq i]
  cases hlw : act[i]? with
  | none => left; exact ⟨rfl, rfl⟩
  | some lw =>
    right
    simp only
    cases hm : ms lw.re text with
    | false => left; exact ⟨lw, rfl, hm, by simp⟩
    | true =>
      right
      have hmem : lw ∈ act := List.getElem?_mem hlw
      have hf := h.fresh lw hmem
      have hi : i < act.length := by
        rcases List.getElem?_eq_some_iff.mp hlw with ⟨h, _⟩
        exact h
      obtain ⟨sl, hsl, hh⟩ := h.holds.removeAt hi
      refine ⟨lw, sl, rfl, hm, hh, ?_⟩
      simp [hf, hsl]

theorem rangeBody_inv (ms : String → String → Bool) (text : String) (i : Nat)
    {s : TailState} {act : List LogWatch} (h : s.Inv act) :
    ∃ act', (rangeBody ms text i s).Inv act' := by
  by_cases hrun : s.status = .running
  · rcases rangeBody_spec ms text i h hrun with ⟨_, he⟩ | ⟨lw, _, _, he⟩ | ⟨lw, sl, hlw, _, hh, he⟩
    · rw [he]
      exact ⟨act, h.holds, h.nodup, h.fresh, h.once, by simp⟩
    · rw [he]; exact ⟨act, h⟩
    · rw [he]
      have hmem : lw ∈ act := List.getElem?_mem hlw
      refine ⟨act.eraseIdx i, hh, ?_, ?_, ?_, ?_⟩
      · exact h.nodup.sublist ((List.eraseIdx_sublist act i).map _)
      · intro w hw
        have hne := addr_ne_of_mem_eraseIdx h.nodup hlw hw
        have := sentCount_snoc s s.lineNo lw sl s.status w.addr
        simp only [hne, if_false, Nat.add_zero] at this
        rw [this]
        exact h.fresh w ((List.eraseIdx_sublist act i).subset hw)
      · intro a
        have := sentCount_snoc s s.lineNo lw sl s.status a
        rw [this]
        by_cases ha : lw.addr = a
        · subst ha
          simp [h.fresh lw hmem]
        · simpa [ha] using h.once a
      · exact h.notBlocked
  · refine ⟨act, ?_⟩
    have : rangeBody ms text i s = s := by
      unfold rangeBody
      split
      · rename_i hs; exact absurd hs hrun
      · rfl
    rw [this]; exact h

theorem rangeLoop_inv (ms : String → String → Bool) (text : String) (is : List Nat) :
    ∀ {s : TailState} {act : List LogWatch}, s.Inv act →
      ∃ act', (rangeLoop ms text is s).Inv act' := by
  induction is with
  | nil => intro s act h; exact ⟨act, h⟩
  | cons i is ih =>
    intro s act h
    obtain ⟨act1, h1⟩ := rangeBody_inv ms text i h
    exact ih h1

theorem rangeTrace_inv (ms : String → String → Bool) (text : String) (is : List Nat) :
    ∀ {s : TailState} {act : List LogWatch}, s.Inv act →
      ∀ t ∈ rangeTrace ms text is s, ∃ act', t.Inv act' := by
  induction is with
  | nil => intro s act _ t ht; simp [rangeTrace] at ht
  | cons i is ih =>
    intro s act h t ht
    obtain ⟨act1, h1⟩ := rangeBody_inv ms text i h
    simp only [rangeTrace, List.mem_cons] at ht
    rcases ht with rfl | ht
    · exact ⟨act1, h1⟩
    · exact ih h1 t ht

theorem deliverLine_inv (ms : String → String → Bool) (text : String)
    {s : TailState} {act : List LogWatch} (h : s.Inv act) :
    ∃ act', (deliverLine ms s text).Inv act' := by
  obtain ⟨act1, h1⟩ := rangeLoop_inv ms text (List.range s.logWatches.len) h
  refine ⟨act1, ?_⟩
  unfold deliverLine
  simp only
  split
  · exact ⟨h1.holds, h1.nodup, h1.fresh, h1.once, by simp [*]⟩
  · exact h1

theorem tailTrace_inv (ms : String → String → Bool) (lines : List String) :
    ∀ {s : TailState} {act : List LogWatch}, s.Inv act →
      ∀ t ∈ tailTrace ms lines s, ∃ act', t.Inv act' := by
  induction lines with
  | nil => intro s act _ t ht; simp [tailTrace] at ht
  | cons text rest ih =>
    intro s act h t ht
    obtain ⟨act1, h1⟩ := deliverLine_inv ms text h
    simp only [tailTrace, List.mem_append, List.mem_cons] at ht
    rcases ht with ht | rfl | ht
    · exact rangeTrace_inv ms text _ h t ht
    · exact ⟨act1, h1⟩
    · exact ih h1 t ht

theorem init_inv {ws : List LogWatch} (hnd : (ws.map LogWatch.addr).Nodup) :
    (TailState.init (registerAll ws)).Inv ws :=
  ⟨registerAll_holds ws, hnd, by intro w _; rfl, by intro a; simp [TailState.sentCount, TailState.init],
    by simp [TailState.init]⟩

theorem rangeBody_grows (ms : String → String → Bool) (text : String) (i : Nat) (s : TailState) :
    SentGrows s (rangeBody ms text i s) := by
  unfold rangeBody SentGrows
  split
  · split
    · exact List.prefix_refl _
    · split
      · split
        · exact List.prefix_refl _
        · split <;> exact List.prefix_append _ _
      · exact List.prefix_refl _
  · exact List.prefix_refl _

theorem rangeLoop_grows (ms : String → String → Bool) (text : String) (is : List Nat) :
    ∀ s : TailState, SentGrows s (rangeLoop ms text is s) := by
  induction is with
  | nil => intro s; exact List.prefix_refl _
  | cons i is ih =>
    intro s
    exact List.IsPrefix.trans (rangeBody_grows ms text i s) (ih _)

theorem deliverLine_sent (ms : String → String → Bool) (text : String) (s : TailState) :
    (deliverLine ms s text).sent = (rangeLoop ms text (List.range s.logWatches.len) s).sent := by
  unfold deliverLine
  simp only
  split <;> rfl

theorem rangeTrace_grows (ms : String → String → Bool) (text : String) (is : List Nat) :
    ∀ s : TailState, (∀ t ∈ rangeTrace ms text is s,
        SentGrows s t ∧ SentGrows t (rangeLoop ms text is s)) ∧
      (rangeTrace ms text is s).Pairwise SentGrows := by
  induction is with
  | nil => intro s; simp [rangeTrace]
  | cons i is ih =>
    intro s
    obtain ⟨h1, h2⟩ := ih (rangeBody ms text i s)
    have hb := rangeBody_grows ms text i s
    refine ⟨?_, ?_⟩
    · intro t ht
      simp only [rangeTrace, List.mem_cons] at ht
      rcases ht with rfl | ht
      · exact ⟨hb, rangeLoop_grows ms text is _⟩
      · exact ⟨List.IsPrefix.trans hb (h1 t ht).1, (h1 t ht).2⟩
    · simp only [rangeTrace, List.pairwise_cons]
      exact ⟨fun t ht => (h1 t ht).1, h2⟩

theorem tailTrace_grows (ms : String → String → Bool) (lines : List String) :
    ∀ s : TailState, (∀ t ∈ tailTrace ms lines s, SentGrows s t) ∧
      (tailTrace ms lines s).Pairwise SentGrows := by
  induction lines with
  | nil => intro s; simp [tailTrace]
  | cons text rest ih =>
    intro s
    obtain ⟨h1, h2⟩ := ih (deliverLine ms s text)
    obtain ⟨r1, r2⟩ := rangeTrace_grows ms text (List.range s.logWatches.len) s
    have hd : SentGrows s (deliverLine ms s text) := by
      unfold SentGrows
      rw [deliverLine_sent]
      exact rangeLoop_grows ms text _ s
    have hrd : ∀ t ∈ rangeTrace ms text (List.range s.logWatches.len) s,
        SentGrows t (deliverLine ms s text) := by
      intro t ht
      unfold SentGrows
      rw [deliverLine_sent]
      exact (r1 t ht).2
    refine ⟨?_, ?_⟩
    · intro t ht
      simp only [tailTrace, List.mem_append, List.mem_cons] at ht
      rcases ht with ht | rfl | ht
      · exact (r1 t ht).1
      · exact hd
      · exact List.IsPrefix.trans hd (h1 t ht)
    · simp only [tailTrace, List.pairwise_append, List.pairwise_cons, List.mem_cons]
      refine ⟨r2, ⟨h1, h2⟩, ?_⟩
      intro a ha b hb
      rcases hb with rfl | hb
      · exact hrd a ha
      · exact List.IsPrefix.trans (hrd a ha) (h1 b hb)

theorem tailLoop_mem_trace (ms : String → String → Bool) (lines : List String) :
    ∀ s : TailState, tailLoop ms lines s ∈ s :: tailTrace ms lines s := by
  induction lines with
  | nil => intro s; simp [tailLoop]
  | cons text rest ih =>
    intro s
    have := ih (deliverLine ms s text)
    simp only [tailLoop, tailTrace, List.mem_cons, List.mem_append] at this ⊢
    rcases this with h | h
    · right; right; left; exact h
    · right; right; right; exact h

/-- C7. For watches with distinct addresses registered with `makeLogWatch` and any
sequence of log lines, in every state the tail loop goes through (after each
iteration of the inner loop, faulted executions included): every channel has
been sent to at most once, a watch still in `logWatches[0:len]` has never been
signalled (so a signalled watch has left the active list, and stays out since
the send log only grows along the execution), and the goroutine never blocks on
a send.  The state the loop ends in is one of these states. -/
theorem tail_loop_signals_each_watch_at_most_once (matchString : String → String → Bool)
    (ws : List LogWatch) (lines : List String) (hnd : (ws.map LogWatch.addr).Nodup) :
    (∀ t ∈ TailState.init (registerAll ws) ::
          tailTrace matchString lines (TailState.init (registerAll ws)),
        (∀ a, t.sentCount a ≤ 1) ∧
        (∀ w, some w ∈ t.logWatches.toList → t.sentCount w.addr = 0) ∧
        t.status ≠ .blocked) ∧
    (TailState.init (registerAll ws) ::
        tailTrace matchString lines (TailState.init (registerAll ws))).Pairwise
      (fun t t' => t.sent <+: t'.sent) ∧
    tailLoop matchString lines (TailState.init (registerAll ws)) ∈
      TailState.init (registerAll ws) ::
        tailTrace matchString lines (TailState.init (registerAll ws)) := by
  have h0 := init_inv hnd
  refine ⟨?_, ?_, tailLoop_mem_trace matchString lines _⟩
  · intro t ht
    have : ∃ act, t.Inv act := by
      rcases List.mem_cons.mp ht with rfl | ht
      · exact ⟨ws, h0⟩
      · exact tailTrace_inv matchString lines h0 t ht
    obtain ⟨act, h⟩ := this
    refine ⟨h.once, ?_, h.notBlocked⟩
    intro w hw
    rw [h.holds.toList_eq] at hw
    have : w ∈ act := by simpa using hw
    exact h.fresh w this
  · obtain ⟨g1, g2⟩ := tailTrace_grows matchString lines (TailState.init (registerAll ws))
    exact List.pairwise_cons.mpr ⟨g1, g2⟩

theorem deliverLine_no_watch (ms : String → String → Bool) (text : String) (s : TailState)
    (hl : s.logWatches.len = 0) (hrun : s.status = .running) :
    deliverLine ms s text =
      { s with printed := s.printed ++ [text], lineNo := s.lineNo + 1 } := by
  unfold deliverLine
  simp [hl, rangeLoop, hrun]

theorem tailLoop_no_watch (ms : String → String → Bool) (lines : List String) :
    ∀ s : TailState, s.logWatches.len = 0 → s.status = .running →
      tailLoop ms lines s =
        { s with printed := s.printed ++ lines, lineNo := s.lineNo + lines.length } := by
  induction lines with
  | nil => intro s _ _; simp [tailLoop]
  | cons text rest ih =>
    intro s hl hrun
    rw [tailLoop, deliverLine_no_watch ms text s hl hrun,
      ih { s with printed := s.printed ++ [text], lineNo := s.lineNo + 1 } hl hrun]
    simp [Nat.add_comm, Nat.add_left_comm]

theorem deliverLine_one_watch (ms : String → String → Bool) (text : String) (s : TailState)
    (lw : LogWatch) (hw : s.logWatches = ⟨[some lw], 1⟩) (hrun : s.status = .running)
    (hs : s.sent = []) :
    deliverLine ms s text =
      if ms lw.re text then
        { s with sent := [(s.lineNo, lw)], logWatches := ⟨[none], 0⟩,
                 printed := s.printed ++ [text], lineNo := s.lineNo + 1 }
      else { s with printed := s.printed ++ [text], lineNo := s.lineNo + 1 } := by
  unfold deliverLine
  cases hm : ms lw.re text <;>
    simp [hw, rangeLoop, rangeBody, hrun, hs, hm, List.range_succ, TailState.sentCount,
      Slice.removeAt]

theorem tailLoop_one_watch (ms : String → String → Bool) (lw : LogWatch) (lines : List String) :
    ∀ s : TailState, s.logWatches = ⟨[some lw], 1⟩ → s.status = .running → s.sent = [] →
      (tailLoop ms lines s).status = .running ∧
      (tailLoop ms lines s).sent =
        ((List.findIdx? (ms lw.re) lines s.lineNo).map (fun k => (k, lw))).toList ∧
      (tailLoop ms lines s).printed = s.printed ++ lines := by
  induction lines with
  | nil => intro s _ hrun hs; simp [tailLoop, hrun, hs]
  | cons text rest ih =>
    intro s hw hrun hs
    rw [tailLoop, deliverLine_one_watch ms text s lw hw hrun hs]
    cases hm : ms lw.re text with
    | true =>
      simp only [if_true]
      rw [tailLoop_no_watch ms rest
        { s with sent := [(s.lineNo, lw)], logWatches := ⟨[none], 0⟩,
                 printed := s.printed ++ [text], lineNo := s.lineNo + 1 } rfl hrun]
      simp [hrun, hm]
    | false =>
      have := ih { s with printed := s.printed ++ [text], lineNo := s.lineNo + 1 } hw hrun hs
      simpa [hm] using this

/-- C2. One watch for the pattern `P`, registered with `makeLogWatch` before the
tail loop runs over the lines `L` and the only watch registered: the loop does
not fault, every line is printed, and the sends made are exactly one send to
that watch, made while processing the first line of `L` that matches `P`, when
some line matches, and none otherwise. -/
theorem single_watch_fires_once_at_first_match (matchString : String → String → Bool)
    (addr : Nat) (P : String) (L : List String) :
    (tailLoop matchString L (TailState.init (makeLogWatch Slice.empty addr P).2)).status
        = .running ∧
    (tailLoop matchString L (TailState.init (makeLogWatch Slice.empty addr P).2)).sent
        = ((List.findIdx? (matchString P) L).map
            (fun k => (k, (makeLogWatch Slice.empty addr P).1))).toList ∧
    (tailLoop matchString L (TailState.init (makeLogWatch Slice.empty addr P).2)).printed = L := by
  have h := tailLoop_one_watch matchString ⟨addr, P⟩ L
    (TailState.init (makeLogWatch Slice.empty addr P).2) rfl rfl rfl
  simpa [TailState.init, makeLogWatch] using h

/-- C3 (counterexample). Two distinct active watches `a` and `b`, and a line that both
match: the pass over the line signals only the first watch, then reads the nil
slot left by the removal and panics; the second watch is still registered and
unsignalled, and the line is not printed. -/
theorem two_matching_watches_panic :
    deliverLine literalMatch (TailState.init (registerAll [⟨1, "a"⟩, ⟨2, "b"⟩])) "ab" =
      { logWatches := ⟨[some ⟨2, "b"⟩, none], 1⟩, sent := [(0, ⟨1, "a"⟩)], printed := [],
        lineNo := 0, status := .panicked } := by
  decide

/-- Witnesses C7 on the input on which the loop faults. -/
theorem tail_loop_signals_each_watch_at_most_once_witness :
    (([⟨1, "a"⟩, ⟨2, "b"⟩] : List LogWatch).map LogWatch.addr).Nodup ∧
    ((∀ t ∈ TailState.init (registerAll [⟨1, "a"⟩, ⟨2, "b"⟩]) ::
          tailTrace literalMatch ["ab"] (TailState.init (registerAll [⟨1, "a"⟩, ⟨2, "b"⟩])),
        (∀ a, t.sentCount a ≤ 1) ∧
        (∀ w, some w ∈ t.logWatches.toList → t.sentCount w.addr = 0) ∧
        t.status ≠ .blocked) ∧
    (TailState.init (registerAll [⟨1, "a"⟩, ⟨2, "b"⟩]) ::
        tailTrace literalMatch ["ab"] (TailState.init (registerAll [⟨1, "a"⟩, ⟨2, "b"⟩]))).Pairwise
      (fun t t' => t.sent <+: t'.sent) ∧
    tailLoop literalMatch ["ab"] (TailState.init (registerAll [⟨1, "a"⟩, ⟨2, "b"⟩])) ∈
      TailState.init (registerAll [⟨1, "a"⟩, ⟨2, "b"⟩]) ::
        tailTrace literalMatch ["ab"] (TailState.init (registerAll [⟨1, "a"⟩, ⟨2, "b"⟩]))) :=
  ⟨by decide,
    tail_loop_signals_each_watch_at_most_once literalMatch [⟨1, "a"⟩, ⟨2, "b"⟩] ["ab"]
      (by decide)⟩

/-- What an attempt leaves behind, when the global `r` is set. -/
theorem tryCreateSession_facts (env : Env) (n : Nat) (p : Proc) (r : Runner) (hr : p.r = some r) :
    ∃ err p1 r1, tryCreateSession env n p = (.ret err, p1) ∧ p1.r = some r1 ∧
      r1.driver = r.driver ∧ r1.cleanup = r.cleanup ∧ p1.cleanups = p.cleanups ∧
      p1.attempts = p.attempts + 1 ∧ p1.triesLogged = p.triesLogged ∧
      (err = none ↔ env.attemptOk n = true) ∧
      (err = none → r1.readyForScreenshot = true) ∧
      (err ≠ none → r.readyForScreenshot = false → r1.readyForScreenshot = false) := by
  unfold tryCreateSession
  cases hc : env.createSessionErr n with
  | some e =>
    refine ⟨some e, p.emit .createSession, r, rfl, by simpa [Proc.emit] using hr, rfl, rfl, rfl, ?_,
      ?_, ?_, ?_, ?_⟩
    · simp [Proc.attempts, Proc.emit]
    · simp [Proc.triesLogged, Proc.emit]
    · simp [Env.attemptOk, hc]
    · simp
    · intro _ h; exact h
  | none =>
    have hr1 : (p.emit .createSession).r = some r := by simpa [Proc.emit] using hr
    simp only [hr1]
    cases hs : env.initialScreenshotErr n with
    | some e =>
      refine ⟨some e, _, r.setReady false, rfl, rfl, rfl, rfl, rfl, ?_, ?_, ?_, ?_, ?_⟩
      · simp [Proc.attempts, Proc.emit]
      · simp [Proc.triesLogged, Proc.emit]
      · simp [Env.attemptOk, hc, hs]
      · simp
      · intro _ _; rfl
    | none =>
      refine ⟨none, _, r.setReady true, rfl, rfl, rfl, rfl, rfl, ?_, ?_, ?_, ?_, ?_⟩
      · simp [Proc.attempts, Proc.emit]
      · simp [Proc.triesLogged, Proc.emit]
      · simp [Env.attemptOk, hc, hs]
      · intro _; rfl
      · intro h; exact absurd rfl h

@[simp] theorem emit_r (p : Proc) (e : Event) : (p.emit e).r = p.r := rfl

@[simp] theorem emit_cleanups (p : Proc) (e : Event) : (p.emit e).cleanups = p.cleanups := rfl

@[simp] theorem emit_logWatches (p : Proc) (e : Event) : (p.emit e).logWatches = p.logWatches :=
  rfl

@[simp] theorem emit_cancelled (p : Proc) (e : Event) : (p.emit e).cancelled = p.cancelled := rfl

theorem emit_attempts (p : Proc) (e : Event) (he : e ≠ .createSession) :
    (p.emit e).attempts = p.attempts := by
  simp [Proc.attempts, Proc.emit, List.count_singleton, he]

@[simp] theorem emit_tryNo_triesLogged (p : Proc) (n : Nat) :
    (p.emit (.tryNo n)).triesLogged = p.triesLogged ++ [n] := by
  simp [Proc.triesLogged, Proc.emit]

@[simp] theorem emit_attemptFailed_triesLogged (p : Proc) (e : String) :
    (p.emit (.attemptFailed e)).triesLogged = p.triesLogged := by
  simp [Proc.triesLogged, Proc.emit]

/-- When every attempt in `tries` fails the loop makes them all and ends with
`hasSession = false`. -/
theorem sessionLoop_all_fail (env : Env) (tries : List Nat) :
    ∀ (p : Proc) (r : Runner), p.r = some r → (∀ j ∈ tries, env.attemptOk j = false) →
      ∃ p1 r1, sessionLoop env tries p = (.ret false, p1) ∧ p1.r = some r1 ∧
        r1.driver = r.driver ∧ r1.cleanup = r.cleanup ∧ p1.cleanups = p.cleanups ∧
        p1.attempts = p.attempts + tries.length ∧
        p1.triesLogged = p.triesLogged ++ tries ∧
        (r.readyForScreenshot = false → r1.readyForScreenshot = false) := by
  induction tries with
  | nil => intro p r hr _; exact ⟨p, r, rfl, hr, rfl, rfl, rfl, rfl, by simp, id⟩
  | cons t rest ih =>
    intro p r hr hall
    obtain ⟨err, p1, r1, he, hr1, hd, hc, hcl, hat, htl, hok, _, hrdy⟩ :=
      tryCreateSession_facts env t (p.emit (.tryNo t)) r (by simpa using hr)
    have hfail : env.attemptOk t = false := hall t (List.mem_cons_self _ _)
    cases err with
    | none => rw [hok.mp rfl] at hfail; exact absurd hfail (by simp)
    | some e =>
      obtain ⟨p2, r2, h2, hr2, hd2, hc2, hcl2, hat2, htl2, hrdy2⟩ :=
        ih (p1.emit (.attemptFailed e)) r1 (by simpa using hr1)
          (fun j hj => hall j (List.mem_cons_of_mem _ hj))
      refine ⟨p2, r2, ?_, hr2, hd2.trans hd, hc2.trans hc, ?_, ?_, ?_, ?_⟩
      · simp only [sessionLoop, he, andThen]
        exact h2
      · rw [hcl2]; simpa using hcl
      · rw [hat2, emit_attempts _ _ (by simp), hat, emit_attempts _ _ (by simp)]
        simp only [List.length_cons]; omega
      · rw [htl2]; simp [htl]
      · intro h0; exact hrdy2 (hrdy (by simp) h0)

/-- When the attempts in `pre` fail and the next one, `t`, succeeds, the loop
stops right after `t` with `hasSession = true`. -/
theorem sessionLoop_first_ok (env : Env) (t : Nat) (post : List Nat) (pre : List Nat) :
    ∀ (p : Proc) (r : Runner), p.r = some r → (∀ j ∈ pre, env.attemptOk j = false) →
      env.attemptOk t = true →
      ∃ p1 r1, sessionLoop env (pre ++ t :: post) p = (.ret true, p1) ∧ p1.r = some r1 ∧
        r1.driver = r.driver ∧ r1.cleanup = r.cleanup ∧ p1.cleanups = p.cleanups ∧
        p1.attempts = p.attempts + pre.length + 1 ∧
        p1.triesLogged = p.triesLogged ++ pre ++ [t] ∧
        r1.readyForScreenshot = true := by
  induction pre with
  | nil =>
    intro p r hr _ hok
    obtain ⟨err, p1, r1, he, hr1, hd, hc, hcl, hat, htl, hiff, hrdy, _⟩ :=
      tryCreateSession_facts env t (p.emit (.tryNo t)) r (by simpa using hr)
    have herr : err = none := hiff.mpr hok
    subst herr
    refine ⟨p1, r1, ?_, hr1, hd, hc, by simpa using hcl, ?_, ?_, hrdy rfl⟩
    · simp only [List.nil_append, sessionLoop, he, andThen]
    · rw [hat, emit_attempts _ _ (by simp)]; simp
    · rw [htl]; simp
  | cons u pre ih =>
    intro p r hr hall hok
    obtain ⟨err, p1, r1, he, hr1, hd, hc, hcl, hat, htl, hiff, _, _⟩ :=
      tryCreateSession_facts env u (p.emit (.tryNo u)) r (by simpa using hr)
    have hfail : env.attemptOk u = false := hall u (List.mem_cons_self _ _)
    cases err with
    | none => rw [hiff.mp rfl] at hfail; exact absurd hfail (by simp)
    | some e =>
      obtain ⟨p2, r2, h2, hr2, hd2, hc2, hcl2, hat2, htl2, hrdy2⟩ :=
        ih (p1.emit (.attemptFailed e)) r1 (by simpa using hr1)
          (fun j hj => hall j (List.mem_cons_of_mem _ hj)) hok
      refine ⟨p2, r2, ?_, hr2, hd2.trans hd, hc2.trans hc, ?_, ?_, ?_, hrdy2⟩
      · simp only [List.cons_append, sessionLoop, he, andThen]
        exact h2
      · rw [hcl2]; simpa using hcl
      · rw [hat2, emit_attempts _ _ (by simp), hat, emit_attempts _ _ (by simp)]
        simp only [List.length_cons]; omega
      · rw [htl2]; simp [htl]

/-- Whatever the attempts do, the loop returns, makes at most one attempt per
value of `tries`, and leaves `readyForScreenshot` equal to `hasSession` when
the flag was false before. -/
theorem sessionLoop_total (env : Env) (tries : List Nat) :
    ∀ (p : Proc) (r : Runner), p.r = some r →
      ∃ b p1 r1, sessionLoop env tries p = (.ret b, p1) ∧ p1.r = some r1 ∧
        p1.attempts ≤ p.attempts + tries.length ∧
        (r.readyForScreenshot = false → r1.readyForScreenshot = b) := by
  induction tries with
  | nil => intro p r hr; exact ⟨false, p, r, rfl, hr, by simp, id⟩
  | cons t rest ih =>
    intro p r hr
    obtain ⟨err, p1, r1, he, hr1, _, _, _, hat, _, _, hrdy, hrdy0⟩ :=
      tryCreateSession_facts env t (p.emit (.tryNo t)) r (by simpa using hr)
    rw [emit_attempts _ _ (by simp)] at hat
    cases err with
    | none =>
      refine ⟨true, p1, r1, ?_, hr1, ?_, fun _ => hrdy rfl⟩
      · simp only [sessionLoop, he, andThen]
      · rw [hat]; simp
    | some e =>
      obtain ⟨b, p2, r2, h2, hr2, hat2, hrdy2⟩ :=
        ih (p1.emit (.attemptFailed e)) r1 (by simpa using hr1)
      rw [emit_attempts _ _ (by simp)] at hat2
      refine ⟨b, p2, r2, ?_, hr2, ?_, fun h0 => hrdy2 (hrdy0 (by simp) h0)⟩
      · simp only [sessionLoop, he, andThen]
        exact h2
      · simp only [List.length_cons]; omega

/-- The cleanup callback when the driver is set: it closes the window, cancels
the context and waits. -/
theorem cleanup_eq (env : Env) (p : Proc) (r : Runner) (d : String) (hr : p.r = some r)
    (hd : r.driver = some d) :
    cleanup env p = (.ret (), { p with cancelled := true, trace := p.trace ++
      [.cleanupCalled, .closeWindow, .cancel, .wait env.cleanupWaitErr] }) := by
  unfold cleanup
  simp [hr, hd, Proc.emit]

/-- The cleanup callback when the driver is still nil: it panics on `CloseWindow`. -/
theorem cleanup_nil_driver (env : Env) (p : Proc) (r : Runner) (hr : p.r = some r)
    (hd : r.driver = none) :
    cleanup env p = (.panic, p.emit .cleanupCalled) := by
  unfold cleanup
  simp [hr, hd]

/-- `gocleanup.Exit` with the one registered callback and the driver set. -/
theorem gocleanupExit_eq (env : Env) (c : Nat) (p : Proc) (r : Runner) (d : String)
    (hr : p.r = some r) (hd : r.driver = some d) (hreg : p.cleanups = [.driverCleanup]) :
    gocleanupExit env c p = (.exit c, { p with cancelled := true, trace := p.trace ++
      [.cleanupCalled, .closeWindow, .cancel, .wait env.cleanupWaitErr] }) := by
  unfold gocleanupExit
  rw [hreg]
  simp [runCleanups, CleanupFunc.run, cleanup_eq env p r d hr hd, andThen, hreg]

theorem tryCreateSession_cleanupCalls (env : Env) (n : Nat) (p : Proc) :
    (tryCreateSession env n p).2.cleanupCalls = p.cleanupCalls := by
  unfold tryCreateSession
  cases env.createSessionErr n with
  | some e => simp [Proc.cleanupCalls, Proc.emit]
  | none =>
    cases hr : p.r with
    | none => simp [Proc.cleanupCalls, Proc.emit, hr]
    | some r =>
      cases env.initialScreenshotErr n <;> simp [Proc.cleanupCalls, Proc.emit, hr]

theorem sessionLoop_cleanupCalls (env : Env) (tries : List Nat) :
    ∀ p : Proc, (sessionLoop env tries p).2.cleanupCalls = p.cleanupCalls := by
  induction tries with
  | nil => intro p; rfl
  | cons t rest ih =>
    intro p
    have h := tryCreateSession_cleanupCalls env t (p.emit (.tryNo t))
    have h0 : (p.emit (.tryNo t)).cleanupCalls = p.cleanupCalls := by
      simp [Proc.cleanupCalls, Proc.emit]
    rw [h0] at h
    unfold sessionLoop
    rcases hx : tryCreateSession env t (p.emit (.tryNo t)) with ⟨o, p1⟩
    rw [hx] at h
    cases o with
    | ret err =>
      cases err with
      | none => simpa [andThen] using h
      | some e =>
        simp only [andThen]
        rw [ih]
        simpa [Proc.cleanupCalls, Proc.emit] using h
    | exit c => simpa [andThen] using h
    | panic => simpa [andThen] using h

theorem sessionTries_split (k : Nat) (hk : k < 5) :
    sessionTries = List.range' 1 k ++ (k + 1) :: List.range' (k + 2) (4 - k) := by
  interval_cases k <;> rfl

/-- C4. The retry loop of lines 237-252, entered as in `doMain` (the global `r` set,
its driver assigned, the cleanup callback registered), when the first `k`
attempts fail: for `k < 5` with attempt `k + 1` succeeding, the loop makes
exactly `k + 1` attempts, the try numbers logged are `1 .. k + 1`, it ends with
`hasSession = true` and the run goes on; for `k = 5` it makes exactly 5
attempts, ends with `hasSession = false`, and the process exits with status 1
through `gocleanup.Exit(1)`, the registered callback being called once.  Never
more than 5 attempts are made. -/
theorem session_retry_loop (env : Env) (p : Proc) (r : Runner) (d : String) (k : Nat)
    (hr : p.r = some r) (hd : r.driver = some d) (hreg : p.cleanups = [.driverCleanup])
    (hk : k ≤ 5) (hfail : ∀ j, 1 ≤ j → j ≤ k → env.attemptOk j = false)
    (hnext : k < 5 → env.attemptOk (k + 1) = true) :
    (k < 5 → ∃ p1, sessionLoop env sessionTries p = (.ret true, p1) ∧
        acquireSession env p = (.ret (), p1) ∧
        p1.attempts = p.attempts + (k + 1) ∧
        p1.triesLogged = p.triesLogged ++ List.range' 1 (k + 1) ∧
        p1.cleanupCalls = p.cleanupCalls) ∧
    (k = 5 → ∃ p1 p2, sessionLoop env sessionTries p = (.ret false, p1) ∧
        p1.attempts = p.attempts + 5 ∧
        p1.triesLogged = p.triesLogged ++ [1, 2, 3, 4, 5] ∧
        acquireSession env p = gocleanupExit env 1 (p1.emit .gaveUp) ∧
        acquireSession env p = (.exit 1, p2) ∧
        p2.attempts = p.attempts + 5 ∧
        p2.cleanupCalls = p.cleanupCalls + 1) ∧
    (acquireSession env p).2.attempts ≤ p.attempts + 5 := by
  have hcase1 : k < 5 → ∃ p1, sessionLoop env sessionTries p = (.ret true, p1) ∧
        acquireSession env p = (.ret (), p1) ∧
        p1.attempts = p.attempts + (k + 1) ∧
        p1.triesLogged = p.triesLogged ++ List.range' 1 (k + 1) ∧
        p1.cleanupCalls = p.cleanupCalls := by
    intro hlt
    have hpre : ∀ j ∈ List.range' 1 k, env.attemptOk j = false := by
      intro j hj
      rw [List.mem_range'_1] at hj
      exact hfail j hj.1 (by omega)
    obtain ⟨p1, r1, h1, _, _, _, _, hat, htl, _⟩ :=
      sessionLoop_first_ok env (k + 1) (List.range' (k + 2) (4 - k)) (List.range' 1 k) p r hr hpre
        (hnext hlt)
    rw [← sessionTries_split k hlt] at h1
    refine ⟨p1, h1, ?_, ?_, ?_, ?_⟩
    · simp [acquireSession, h1, andThen]
    · rw [hat]; simp; omega
    · rw [htl, List.append_assoc]
      congr 1
      rw [List.range'_concat]
      simp [Nat.add_comm]
    · have := sessionLoop_cleanupCalls env sessionTries p
      rw [h1] at this
      exact this
  have hcase2 : k = 5 → ∃ p1 p2, sessionLoop env sessionTries p = (.ret false, p1) ∧
        p1.attempts = p.attempts + 5 ∧
        p1.triesLogged = p.triesLogged ++ [1, 2, 3, 4, 5] ∧
        acquireSession env p = gocleanupExit env 1 (p1.emit .gaveUp) ∧
        acquireSession env p = (.exit 1, p2) ∧
        p2.attempts = p.attempts + 5 ∧
        p2.cleanupCalls = p.cleanupCalls + 1 := by
    intro h5
    subst h5
    have hall : ∀ j ∈ sessionTries, env.attemptOk j = false := by
      intro j hj
      simp only [sessionTries, List.mem_cons, List.mem_singleton, List.not_mem_nil, or_false] at hj
      exact hfail j (by omega) (by omega)
    obtain ⟨p1, r1, h1, hr1, hd1, _, hcl1, hat, htl, _⟩ := sessionLoop_all_fail env sessionTries p r hr hall
    have hacq : acquireSession env p = gocleanupExit env 1 (p1.emit .gaveUp) := by
      simp [acquireSession, h1, andThen]
    have hex := gocleanupExit_eq env 1 (p1.emit .gaveUp) r1 d (by simpa using hr1)
      (by rw [hd1, hd]) (by simpa [hreg] using hcl1)
    have hcc := sessionLoop_cleanupCalls env sessionTries p
    rw [h1] at hcc
    refine ⟨p1, _, h1, by simpa [sessionTries] using hat, by simpa [sessionTries] using htl, hacq,
      hacq.trans hex, ?_, ?_⟩
    · have : p1.attempts = p.attempts + 5 := by simpa [sessionTries] using hat
      rw [← this]
      simp [Proc.attempts, Proc.emit]
    · simp only at hcc
      rw [← hcc]
      simp [Proc.cleanupCalls, Proc.emit]
  refine ⟨hcase1, hcase2, ?_⟩
  rcases Nat.lt_or_ge k 5 with hlt | hge
  · obtain ⟨p1, _, h2, h3, _⟩ := hcase1 hlt
    rw [h2, h3]
    show p.attempts + (k + 1) ≤ p.attempts + 5
    omega
  · obtain ⟨p1, p2, _, _, _, _, h5, h6, _⟩ := hcase2 (by omega)
    rw [h5, h6]

/-- Witnesses C4 with two refused attempts followed by a successful one. -/
theorem session_retry_loop_witness :
    Proc.registered.r = some ⟨some "http://127.0.0.1:9515", some .driverCleanup, false⟩ ∧
    (2 ≤ 5) ∧ (∀ j, 1 ≤ j → j ≤ 2 → Env.twoRefusals.attemptOk j = false) ∧
    (2 < 5 → Env.twoRefusals.attemptOk (2 + 1) = true) ∧
    ((2 < 5 → ∃ p1, sessionLoop Env.twoRefusals sessionTries Proc.registered = (.ret true, p1) ∧
        acquireSession Env.twoRefusals Proc.registered = (.ret (), p1) ∧
        p1.attempts = Proc.registered.attempts + (2 + 1) ∧
        p1.triesLogged = Proc.registered.triesLogged ++ List.range' 1 (2 + 1) ∧
        p1.cleanupCalls = Proc.registered.cleanupCalls) ∧
    (2 = 5 → ∃ p1 p2, sessionLoop Env.twoRefusals sessionTries Proc.registered = (.ret false, p1) ∧
        p1.attempts = Proc.registered.attempts + 5 ∧
        p1.triesLogged = Proc.registered.triesLogged ++ [1, 2, 3, 4, 5] ∧
        acquireSession Env.twoRefusals Proc.registered =
          gocleanupExit Env.twoRefusals 1 (p1.emit .gaveUp) ∧
        acquireSession Env.twoRefusals Proc.registered = (.exit 1, p2) ∧
        p2.attempts = Proc.registered.attempts + 5 ∧
        p2.cleanupCalls = Proc.registered.cleanupCalls + 1) ∧
    (acquireSession Env.twoRefusals Proc.registered).2.attempts ≤
      Proc.registered.attempts + 5) :=
  have hfail : ∀ j, 1 ≤ j → j ≤ 2 → Env.twoRefusals.attemptOk j = false := by
    intro j h1 h2
    interval_cases j <;> rfl
  ⟨rfl, by decide, hfail, fun _ => rfl,
    session_retry_loop Env.twoRefusals Proc.registered _ "http://127.0.0.1:9515" 2 rfl rfl rfl
      (by decide) hfail (fun _ => rfl)⟩

/-- C10. One call of `tryCreateSession` with the global `r` set: when creation fails
the error is returned, no screenshot is attempted and the runner is left as it
was; when creation succeeds the initial screenshot is attempted, and the call
returns nil with `readyForScreenshot = true` when the screenshot succeeds,
the screenshot error with `readyForScreenshot = false` when it fails.  So the
call returns nil exactly when both steps succeed.  Starting from
`readyForScreenshot = false`, the retry loop returns and leaves
`readyForScreenshot` equal to `hasSession`. -/
theorem try_create_session_outcomes (env : Env) (n : Nat) (p : Proc) (r : Runner)
    (hr : p.r = some r) :
    (∀ e, env.createSessionErr n = some e →
      tryCreateSession env n p = (.ret (some e), p.emit .createSession)) ∧
    (env.createSessionErr n = none → ∀ e, env.initialScreenshotErr n = some e →
      tryCreateSession env n p =
        (.ret (some e), { (p.emit .createSession).emit (.screenshot "initial") with
                            r := some (r.setReady false) })) ∧
    (env.createSessionErr n = none → env.initialScreenshotErr n = none →
      tryCreateSession env n p =
        (.ret none, { (p.emit .createSession).emit (.screenshot "initial") with
                        r := some (r.setReady true) })) ∧
    ((tryCreateSession env n p).1 = .ret none ↔
      (env.createSessionErr n = none ∧ env.initialScreenshotErr n = none)) ∧
    (r.readyForScreenshot = false →
      ∃ b p1 r1, sessionLoop env sessionTries p = (.ret b, p1) ∧ p1.r = some r1 ∧
        r1.readyForScreenshot = b) := by
  refine ⟨?_, ?_, ?_, ?_, ?_⟩
  · intro e he
    simp [tryCreateSession, he]
  · intro hc e he
    simp [tryCreateSession, hc, he, hr, Proc.emit]
  · intro hc he
    simp [tryCreateSession, hc, he, hr, Proc.emit]
  · cases hc : env.createSessionErr n with
    | some e => simp [tryCreateSession, hc]
    | none =>
      cases he : env.initialScreenshotErr n with
      | some e => simp [tryCreateSession, hc, he, hr]
      | none => simp [tryCreateSession, hc, he, hr]
  · intro h0
    obtain ⟨b, p1, r1, h1, hr1, _, hrdy⟩ := sessionLoop_total env sessionTries p r hr
    exact ⟨b, p1, r1, h1, hr1, hrdy h0⟩

/-- Witnesses C10 on the first attempt of a run in which the first two attempts are refused. -/
theorem try_create_session_outcomes_witness :
    Proc.registered.r = some ⟨some "http://127.0.0.1:9515", some .driverCleanup, false⟩ ∧
    ((∀ e, Env.twoRefusals.createSessionErr 1 = some e →
      tryCreateSession Env.twoRefusals 1 Proc.registered =
        (.ret (some e), Proc.registered.emit .createSession)) ∧
    (Env.twoRefusals.createSessionErr 1 = none →
      ∀ e, Env.twoRefusals.initialScreenshotErr 1 = some e →
      tryCreateSession Env.twoRefusals 1 Proc.registered =
        (.ret (some e),
          { (Proc.registered.emit .createSession).emit (.screenshot "initial") with
              r := some (Runner.setReady
                ⟨some "http://127.0.0.1:9515", some .driverCleanup, false⟩ false) })) ∧
    (Env.twoRefusals.createSessionErr 1 = none → Env.twoRefusals.initialScreenshotErr 1 = none →
      tryCreateSession Env.twoRefusals 1 Proc.registered =
        (.ret none,
          { (Proc.registered.emit .createSession).emit (.screenshot "initial") with
              r := some (Runner.setReady
                ⟨some "http://127.0.0.1:9515", some .driverCleanup, false⟩ true) })) ∧
    ((tryCreateSession Env.twoRefusals 1 Proc.registered).1 = .ret none ↔
      (Env.twoRefusals.createSessionErr 1 = none ∧
        Env.twoRefusals.initialScreenshotErr 1 = none)) ∧
    ((⟨some "http://127.0.0.1:9515", some .driverCleanup, false⟩ : Runner).readyForScreenshot
        = false →
      ∃ b p1 r1, sessionLoop Env.twoRefusals sessionTries Proc.registered = (.ret b, p1) ∧
        p1.r = some r1 ∧ r1.readyForScreenshot = b)) :=
  ⟨rfl, try_create_session_outcomes Env.twoRefusals 1 Proc.registered _ rfl⟩

/-- C9. `WaitWithTimeout` with the global `r` set returns nil exactly when the
`select` takes the receive on the channel of the watch; when it takes the
timer it returns the error "Timed out after <timeout> waiting for pattern
(<pattern>)" with the source text of the regexp of the watch; either way
`logWatches` is left as it was. -/
theorem wait_with_timeout_result (env : Env) (lw : LogWatch) (timeout : Nat) (sel : SelectCase)
    (p : Proc) (r : Runner) (hr : p.r = some r) :
    ((WaitWithTimeout env lw timeout sel p).1 = .ret none ↔ sel = .signal) ∧
    (sel = .timer → (WaitWithTimeout env lw timeout sel p).1 =
      .ret (some ("Timed out after " ++ env.fmtDuration timeout ++ " waiting for pattern (" ++
        lw.re ++ ")"))) ∧
    (WaitWithTimeout env lw timeout sel p).2.logWatches = p.logWatches := by
  cases sel <;> simp [WaitWithTimeout, hr]

/-- Witnesses C9 on the setup watch with the timer firing. -/
theorem wait_with_timeout_result_witness :
    Proc.registered.r = some ⟨some "http://127.0.0.1:9515", some .driverCleanup, false⟩ ∧
    (((WaitWithTimeout Env.allGood ⟨1, "Setup done"⟩ 60000000000 .timer Proc.registered).1
        = .ret none ↔ SelectCase.timer = .signal) ∧
    (SelectCase.timer = .timer →
      (WaitWithTimeout Env.allGood ⟨1, "Setup done"⟩ 60000000000 .timer Proc.registered).1 =
      .ret (some ("Timed out after " ++ Env.allGood.fmtDuration 60000000000 ++
        " waiting for pattern (" ++ (⟨1, "Setup done"⟩ : LogWatch).re ++ ")"))) ∧
    (WaitWithTimeout Env.allGood ⟨1, "Setup done"⟩ 60000000000 .timer Proc.registered).2.logWatches
      = Proc.registered.logWatches) :=
  ⟨rfl, wait_with_timeout_result Env.allGood ⟨1, "Setup done"⟩ 60000000000 .timer
    Proc.registered _ rfl⟩

/-- C8. `must(err)` with `err` non-nil, the global `r` set, its driver assigned and the
cleanup callback registered: whatever the browser-log fetch and the failure
screenshot return, the browser log is fetched, then the screenshot named by
the error text is taken, then `gocleanup.Exit(1)` runs the callback, and the
process exits with status 1. -/
theorem must_diagnostics_then_exit (env : Env) (e : String) (p : Proc) (r : Runner) (d : String)
    (hr : p.r = some r) (hd : r.driver = some d) (hreg : p.cleanups = [.driverCleanup]) :
    must env (some e) p =
      (.exit 1, { p with
        cancelled := true,
        trace := p.trace ++
          [.fatal e, .failedIn, .browserLog,
            (match env.browserLogErr with
              | none => Event.browserLogPrinted
              | some le => Event.browserLogFailed le),
            .screenshot e] ++
          (match env.failureScreenshotErr with
            | none => []
            | some se => [Event.screenshotFailed se]) ++
          [.cleanupCalled, .closeWindow, .cancel, .wait env.cleanupWaitErr] }) := by
  unfold must
  simp only [emit_r, hr, hd]
  cases hb : env.browserLogErr <;> cases hs : env.failureScreenshotErr <;>
    (rw [gocleanupExit_eq env 1 _ r d _ hd _] <;> simp [Proc.emit, hr, hreg])

/-- Witnesses C8 with both diagnostic steps failing. -/
theorem must_diagnostics_then_exit_witness :
    Proc.registered.r = some ⟨some "http://127.0.0.1:9515", some .driverCleanup, false⟩ ∧
    Proc.registered.cleanups = [.driverCleanup] ∧
    must { Env.allGood with browserLogErr := some "no log", failureScreenshotErr := some "no shot" }
        (some "boom") Proc.registered =
      (.exit 1, { Proc.registered with
        cancelled := true,
        trace := Proc.registered.trace ++
          [.fatal "boom", .failedIn, .browserLog, Event.browserLogFailed "no log",
            .screenshot "boom"] ++ [Event.screenshotFailed "no shot"] ++
          [.cleanupCalled, .closeWindow, .cancel, .wait none] }) :=
  ⟨rfl, rfl,
    must_diagnostics_then_exit
      { Env.allGood with browserLogErr := some "no log", failureScreenshotErr := some "no shot" }
      "boom" Proc.registered _ "http://127.0.0.1:9515" rfl rfl rfl⟩

/-- C1 (failing input). With the global `r` nil, `must(err)` with a non-nil `err`
prints the fatal block and returns to its caller.  With the API key absent
`doMain` returns its error before `r` is assigned, so `main` returns after
`must` and the process ends with status 0, not 1. -/
theorem must_returns_when_runner_is_nil :
    (∀ (env : Env) (e : String) (cl : List CleanupFunc) (lw : Slice) (c : Bool)
        (tr : List Event),
      must env (some e) ⟨none, cl, lw, c, tr⟩ = (.ret (), ⟨none, cl, lw, c, tr ++ [.fatal e]⟩)) ∧
    (∀ env : Env,
      main { env with apiKey := "" } =
        (.ret (), Proc.start.emit
          (.fatal "API key not given via environment, stopping here")) ∧
      exitStatus (main { env with apiKey := "" }).1 = 0) := by
  refine ⟨?_, ?_⟩
  · intro env e cl lw c tr
    rfl
  · intro env
    exact ⟨rfl, rfl⟩

theorem cleanup_outcome (env : Env) (p : Proc) :
    ((cleanup env p).1 = .ret () ∨ (cleanup env p).1 = .panic) ∧
      p.trace <+: (cleanup env p).2.trace := by
  cases hr : p.r with
  | none =>
    have : cleanup env p = (.panic, p) := by simp [cleanup, hr]
    rw [this]
    exact ⟨Or.inr rfl, List.prefix_refl _⟩
  | some r =>
    cases hd : r.driver with
    | none =>
      rw [cleanup_nil_driver env p r hr hd]
      exact ⟨Or.inr rfl, by simp [Proc.emit]⟩
    | some d =>
      rw [cleanup_eq env p r d hr hd]
      exact ⟨Or.inl rfl, by simp⟩

theorem runCleanups_outcome (env : Env) (cs : List CleanupFunc) :
    ∀ p : Proc, ((runCleanups env cs p).1 = .ret () ∨ (runCleanups env cs p).1 = .panic) ∧
      p.trace <+: (runCleanups env cs p).2.trace := by
  induction cs with
  | nil => intro p; exact ⟨Or.inl rfl, List.prefix_refl _⟩
  | cons f fs ih =>
    intro p
    cases f
    have hc := cleanup_outcome env p
    simp only [runCleanups, CleanupFunc.run]
    rcases hx : cleanup env p with ⟨o, p1⟩
    rw [hx] at hc
    rcases hc with ⟨ho | ho, hpre⟩
    · simp only at ho
      subst ho
      simp only [andThen]
      exact ⟨(ih p1).1, List.IsPrefix.trans hpre (ih p1).2⟩
    · simp only at ho
      subst ho
      exact ⟨Or.inr rfl, hpre⟩

/-- C6 (as amended). The crash watcher looks only at the result of `Wait`: with a nil
result it returns and nothing is reported; with a non-nil result it reports
the crash and calls `gocleanup.Exit(1)`, which ends the process (with status 1
when the registered callback completes), whether or not `chromeDriverCancel`
was called before. -/
theorem crash_watcher_reports_iff_wait_error (env : Env) (p : Proc) (e : String) :
    crashWatcher env none p = (.ret (), p) ∧
    Event.crashed e ∈ (crashWatcher env (some e) p).2.trace ∧
    ((crashWatcher env (some e) p).1 = .exit 1 ∨ (crashWatcher env (some e) p).1 = .panic) ∧
    (∀ (d : String) (cu : Option CleanupFunc) (rdy : Bool) (lw : Slice) (c : Bool)
        (tr : List Event),
      crashWatcher env (some e) ⟨some ⟨some d, cu, rdy⟩, [.driverCleanup], lw, c, tr⟩ =
        (.exit 1, ⟨some ⟨some d, cu, rdy⟩, [.driverCleanup], lw, true,
          tr ++ [.crashed e, .cleanupCalled, .closeWindow, .cancel,
            .wait env.cleanupWaitErr]⟩)) := by
  have h := runCleanups_outcome env p.cleanups (p.emit (.crashed e))
  refine ⟨rfl, ?_, ?_, ?_⟩
  · simp only [crashWatcher, gocleanupExit, emit_cleanups]
    rcases hx : runCleanups env p.cleanups (p.emit (.crashed e)) with ⟨o, p1⟩
    rw [hx] at h
    have hmem : Event.crashed e ∈ p1.trace :=
      h.2.subset (by simp [Proc.emit])
    cases o <;> simpa [andThen] using hmem
  · simp only [crashWatcher, gocleanupExit, emit_cleanups]
    rcases hx : runCleanups env p.cleanups (p.emit (.crashed e)) with ⟨o, p1⟩
    rw [hx] at h
    rcases h.1 with ho | ho
    · simp only at ho; subst ho; left; rfl
    · simp only at ho; subst ho; right; rfl
  · intro d cu rdy lw c tr
    simp [crashWatcher, Proc.emit,
      gocleanupExit_eq env 1 ⟨some ⟨some d, cu, rdy⟩, [.driverCleanup], lw, c,
        tr ++ [.crashed e]⟩ ⟨some d, cu, rdy⟩ d rfl rfl rfl]

/-- C6 (counterexample). After the cleanup callback has called `chromeDriverCancel`, a
non-nil result of `Wait` still makes the crash watcher report a crash and exit
the process with status 1 through `gocleanup.Exit(1)`. -/
theorem crash_reported_after_shutdown_request :
    (cleanup Env.allGood Proc.registered).2.cancelled = true ∧
    (crashWatcher Env.allGood (some "signal: killed")
      (cleanup Env.allGood Proc.registered).2).1 = .exit 1 ∧
    Event.crashed "signal: killed" ∈
      (crashWatcher Env.allGood (some "signal: killed")
        (cleanup Env.allGood Proc.registered).2).2.trace := by
  refine ⟨rfl, rfl, ?_⟩
  decide

theorem rangeLoop_append (ms : String → String → Bool) (text : String) (is js : List Nat) :
    ∀ s : TailState, rangeLoop ms text (is ++ js) s = rangeLoop ms text js (rangeLoop ms text is s) := by
  induction is with
  | nil => intro s; rfl
  | cons i is ih => intro s; simp only [List.cons_append, rangeLoop]; exact ih _

/-- Indices whose watch does not match the line leave the state as it is. -/
theorem rangeLoop_no_match (ms : String → String → Bool) (text : String) (is : List Nat)
    {s : TailState} {act : List LogWatch} (h : s.Inv act) (hrun : s.status = .running)
    (hno : ∀ i ∈ is, ∃ w, act[i]? = some w ∧ ms w.re text = false) :
    rangeLoop ms text is s = s := by
  induction is with
  | nil => rfl
  | cons i is ih =>
    obtain ⟨w, hw, hm⟩ := hno i (List.mem_cons_self _ _)
    have hb : rangeBody ms text i s = s := by
      rcases rangeBody_spec ms text i h hrun with ⟨hn, _⟩ | ⟨_, _, _, he⟩ | ⟨lw, _, hlw, hlm, _, _⟩
      · rw [hw] at hn; exact absurd hn (by simp)
      · exact he
      · rw [hw] at hlw
        cases hlw
        rw [hm] at hlm
        exact absurd hlm (by simp)
    simp only [rangeLoop, hb]
    exact ih (fun j hj => hno j (List.mem_cons_of_mem _ hj))

/-- One line delivered to a state holding `pre ++ [w]` when no watch of `pre` matches. -/
theorem deliverLine_last_only (ms : String → String → Bool) (text : String)
    {s : TailState} {pre : List LogWatch} {w : LogWatch} (h : s.Inv (pre ++ [w]))
    (hrun : s.status = .running) (hno : ∀ v ∈ pre, ms v.re text = false) :
    (deliverLine ms s text).status = .running ∧
    (deliverLine ms s text).printed = s.printed ++ [text] ∧
    (deliverLine ms s text).sent =
      s.sent ++ ((pre ++ [w]).filter (fun v => ms v.re text)).map (fun v => (s.lineNo, v)) ∧
    (deliverLine ms s text).logWatches.toList =
      ((pre ++ [w]).filter (fun v => !ms v.re text)).map some := by
  have hlen : s.logWatches.len = pre.length + 1 := by
    obtain ⟨k, _, hl⟩ := h.holds
    simpa using hl
  have hpre : rangeLoop ms text (List.range pre.length) s = s := by
    apply rangeLoop_no_match ms text _ h hrun
    intro i hi
    have hi2 : i < pre.length := List.mem_range.mp hi
    refine ⟨pre[i], ?_, hno _ (List.getElem_mem _)⟩
    rw [List.getElem?_append_left hi2]
    exact List.getElem?_eq_getElem hi2
  have hloop : rangeLoop ms text (List.range s.logWatches.len) s =
      rangeBody ms text pre.length s := by
    rw [hlen, List.range_succ, rangeLoop_append, hpre]
    rfl
  have hlast : (pre ++ [w])[pre.length]? = some w := by simp
  have hf1 : pre.filter (fun v => ms v.re text) = [] := by
    rw [List.filter_eq_nil_iff]
    intro v hv
    simp [hno v hv]
  have hf2 : pre.filter (fun v => !ms v.re text) = pre := by
    rw [List.filter_eq_self]
    intro v hv
    simp [hno v hv]
  unfold deliverLine
  simp only [hloop]
  rcases rangeBody_spec ms text pre.length h hrun with ⟨hn, _⟩ | ⟨lw, hlw, hm, he⟩ |
      ⟨lw, sl, hlw, hm, hh, he⟩
  · rw [hlast] at hn; exact absurd hn (by simp)
  · rw [hlast] at hlw
    cases hlw
    rw [he]
    simp only [hrun]
    refine ⟨trivial, trivial, ?_, ?_⟩
    · simp [List.filter_append, hf1, hm]
    · rw [h.holds.toList_eq]
      simp [List.filter_append, hf2, hm]
  · rw [hlast] at hlw
    cases hlw
    rw [he]
    simp only [hrun]
    have herase : (pre ++ [w]).eraseIdx pre.length = pre := by
      rw [List.eraseIdx_append_of_length_le (Nat.le_refl _)]
      simp
    rw [herase] at hh
    refine ⟨trivial, trivial, ?_, ?_⟩
    · simp [List.filter_append, hf1, hm]
    · rw [hh.toList_eq]
      simp [List.filter_append, hf2, hm]

/-- C3 (as amended). Distinct watches registered with `makeLogWatch` and a line that
no watch other than the last one matches (so in particular any list of at
most one watch, all the program registers): the pass over the line does not
fault and the line is printed; the sends made are one send to each watch
that matches, and the active list afterwards is the watches that do not
match, in their original order. -/
theorem pass_honours_match_of_last_watch (matchString : String → String → Bool)
    (ws : List LogWatch) (text : String) (hnd : (ws.map LogWatch.addr).Nodup)
    (hno : ∀ v ∈ ws.dropLast, matchString v.re text = false) :
    (deliverLine matchString (TailState.init (registerAll ws)) text).status = .running ∧
    (deliverLine matchString (TailState.init (registerAll ws)) text).printed = [text] ∧
    (deliverLine matchString (TailState.init (registerAll ws)) text).sent =
      (ws.filter (fun v => matchString v.re text)).map (fun v => (0, v)) ∧
    (deliverLine matchString (TailState.init (registerAll ws)) text).logWatches.toList =
      (ws.filter (fun v => !matchString v.re text)).map some := by
  by_cases hws : ws = []
  · subst hws
    simp [registerAll, TailState.init, Slice.empty, deliverLine, rangeLoop, Slice.toList]
  · have hsplit := List.dropLast_concat_getLast hws
    have hinv := init_inv hnd
    rw [← hsplit] at hinv
    have h := deliverLine_last_only matchString text hinv rfl hno
    rw [hsplit] at h
    simpa [TailState.init] using h

/-- Witnesses C3 (as amended) on two watches and a line that only the second matches. -/
theorem pass_honours_match_of_last_watch_witness :
    (([⟨1, "a"⟩, ⟨2, "b"⟩] : List LogWatch).map LogWatch.addr).Nodup ∧
    (∀ v ∈ ([⟨1, "a"⟩, ⟨2, "b"⟩] : List LogWatch).dropLast, literalMatch v.re "b" = false) ∧
    ((deliverLine literalMatch (TailState.init (registerAll [⟨1, "a"⟩, ⟨2, "b"⟩])) "b").status
        = .running ∧
    (deliverLine literalMatch (TailState.init (registerAll [⟨1, "a"⟩, ⟨2, "b"⟩])) "b").printed
        = ["b"] ∧
    (deliverLine literalMatch (TailState.init (registerAll [⟨1, "a"⟩, ⟨2, "b"⟩])) "b").sent =
      (([⟨1, "a"⟩, ⟨2, "b"⟩] : List LogWatch).filter
        (fun v => literalMatch v.re "b")).map (fun v => (0, v)) ∧
    (deliverLine literalMatch
        (TailState.init (registerAll [⟨1, "a"⟩, ⟨2, "b"⟩])) "b").logWatches.toList =
      (([⟨1, "a"⟩, ⟨2, "b"⟩] : List LogWatch).filter
        (fun v => !literalMatch v.re "b")).map some) :=
  ⟨by decide, by decide,
    pass_honours_match_of_last_watch literalMatch [⟨1, "a"⟩, ⟨2, "b"⟩] "b" (by decide)
      (by decide)⟩

theorem emit_cleanupCalls (p : Proc) (e : Event) (he : e ≠ .cleanupCalled) :
    (p.emit e).cleanupCalls = p.cleanupCalls := by
  simp [Proc.cleanupCalls, Proc.emit, List.count_singleton, he]

theorem emit_cleanupCalls_self (p : Proc) :
    (p.emit .cleanupCalled).cleanupCalls = p.cleanupCalls + 1 := by
  simp [Proc.cleanupCalls, Proc.emit]

theorem emit_armed {p : Proc} (h : Armed p) (e : Event) : Armed (p.emit e) := by
  obtain ⟨r, d, hr, hd, hc⟩ := h
  exact ⟨r, d, by simpa using hr, hd, by simpa using hc⟩

theorem gocleanupExit_accounted (env : Env) (c : Nat) {p : Proc} (h : Armed p) :
    ∃ q, gocleanupExit env c p = (.exit c, q) ∧ q.cleanupCalls = p.cleanupCalls + 1 := by
  obtain ⟨r, d, hr, hd, hc⟩ := h
  refine ⟨_, gocleanupExit_eq env c p r d hr hd hc, ?_⟩
  simp [Proc.cleanupCalls]

theorem must_accounted (env : Env) (err : Option String) {p : Proc} {n : Nat} (h : Armed p)
    (hn : p.cleanupCalls = n) : Accounted (fun _ : Unit => True) n (must env err p) := by
  cases err with
  | none => exact Or.inl ⟨(), rfl, trivial, h, hn⟩
  | some e =>
    right
    obtain ⟨r, d, hr, hd, hc⟩ := h
    unfold must
    simp only [emit_r, hr, hd]
    cases env.browserLogErr <;> cases env.failureScreenshotErr <;>
      (simp only []
       rw [gocleanupExit_eq env 1 _ r d (by simpa using hr) hd (by simpa using hc)]
       refine ⟨1, rfl, ?_⟩
       simp [Proc.cleanupCalls, Proc.emit, ← hn])

theorem andThen_accounted {α β : Type} {Q : α → Prop} {Q2 : β → Prop} {n : Nat}
    {x : Outcome α × Proc} {f : α → Proc → Outcome β × Proc} (hx : Accounted Q n x)
    (hf : ∀ a p, Q a → Armed p → p.cleanupCalls = n → Accounted Q2 n (f a p)) :
    Accounted Q2 n (andThen x f) := by
  rcases x with ⟨o, p⟩
  rcases hx with ⟨a, ho, hq, ha, hn⟩ | ⟨c, ho, hn⟩
  · simp only at ho ha hn
    subst ho
    exact hf a p hq ha hn
  · simp only at ho hn
    subst ho
    exact Or.inr ⟨c, rfl, hn⟩

theorem sessionLoop_keeps (env : Env) (tries : List Nat) :
    ∀ (p : Proc) (r : Runner), p.r = some r →
      ∃ b p1 r1, sessionLoop env tries p = (.ret b, p1) ∧ p1.r = some r1 ∧
        r1.driver = r.driver ∧ p1.cleanups = p.cleanups := by
  induction tries with
  | nil => intro p r hr; exact ⟨false, p, r, rfl, hr, rfl, rfl⟩
  | cons t rest ih =>
    intro p r hr
    obtain ⟨err, p1, r1, he, hr1, hd, _, hcl, _⟩ :=
      tryCreateSession_facts env t (p.emit (.tryNo t)) r (by simpa using hr)
    cases err with
    | none =>
      refine ⟨true, p1, r1, ?_, hr1, hd, by simpa using hcl⟩
      simp only [sessionLoop, he, andThen]
    | some e =>
      obtain ⟨b, p2, r2, h2, hr2, hd2, hcl2⟩ :=
        ih (p1.emit (.attemptFailed e)) r1 (by simpa using hr1)
      refine ⟨b, p2, r2, ?_, hr2, hd2.trans hd, ?_⟩
      · simp only [sessionLoop, he, andThen]
        exact h2
      · rw [hcl2]; simpa using hcl

theorem acquireSession_accounted (env : Env) {p : Proc} {n : Nat} (h : Armed p)
    (hn : p.cleanupCalls = n) : Accounted (fun _ : Unit => True) n (acquireSession env p) := by
  obtain ⟨r, d, hr, hd, hc⟩ := h
  obtain ⟨b, p1, r1, h1, hr1, hd1, hcl1⟩ := sessionLoop_keeps env sessionTries p r hr
  have hcc := sessionLoop_cleanupCalls env sessionTries p
  rw [h1] at hcc
  simp only at hcc
  have harm : Armed p1 := ⟨r1, d, hr1, hd1.trans hd, hcl1.trans hc⟩
  unfold acquireSession
  rw [h1]
  cases b with
  | true => exact Or.inl ⟨(), rfl, trivial, harm, hcc.trans hn⟩
  | false =>
    obtain ⟨q, hq, hqc⟩ := gocleanupExit_accounted env 1 (emit_armed harm .gaveUp)
    right
    refine ⟨1, ?_, ?_⟩
    · simp [andThen, hq]
    · simp only [andThen, Bool.false_eq_true, if_false, hq]
      rw [hqc, emit_cleanupCalls _ _ (by simp), hcc, hn]

theorem runFlow_accounted (env : Env) (name : String) {p : Proc} {n : Nat} (h : Armed p)
    (hn : p.cleanupCalls = n) : Accounted (fun _ : Unit => True) n (runFlow env name p) :=
  must_accounted env _ (emit_armed h _) (by rw [emit_cleanupCalls _ _ (by simp), hn])

theorem wait_accounted (env : Env) (lw : LogWatch) (t : Nat) (sel : SelectCase) {p : Proc}
    {n : Nat} (h : Armed p) (hn : p.cleanupCalls = n) :
    Accounted (fun _ : Option String => True) n (WaitWithTimeout env lw t sel p) := by
  obtain ⟨r, d, hr, hd, hc⟩ := h
  cases sel with
  | signal =>
    left
    refine ⟨none, by simp [WaitWithTimeout, hr], trivial, ?_, ?_⟩
    · simpa [WaitWithTimeout, hr] using emit_armed ⟨r, d, hr, hd, hc⟩ (.sawPattern lw.re)
    · simp only [WaitWithTimeout, hr]
      rw [emit_cleanupCalls _ _ (by simp), hn]
  | timer => exact Or.inl ⟨_, rfl, trivial, ⟨r, d, hr, hd, hc⟩, hn⟩

theorem withDefer_emit_accounted {α : Type} {Q : α → Prop} {n : Nat} (e : Event)
    (he : e ≠ .cleanupCalled) {x : Outcome α × Proc} (hx : Accounted Q n x) :
    Accounted Q n (withDefer (fun q => (.ret (), q.emit e)) x) := by
  rcases x with ⟨o, p⟩
  rcases hx with ⟨a, ho, hq, ha, hn⟩ | ⟨c, ho, hn⟩
  · simp only at ho ha hn
    subst ho
    exact Or.inl ⟨a, rfl, hq, emit_armed ha e, by
      show (p.emit e).cleanupCalls = n
      rw [emit_cleanupCalls _ _ he, hn]⟩
  · simp only at ho hn
    subst ho
    exact Or.inr ⟨c, rfl, hn⟩

theorem doMainSession_accounted (env : Env) (lw : LogWatch) {p : Proc} {n : Nat} (h : Armed p)
    (hn : p.cleanupCalls = n) :
    Accounted (fun a : Option String => a = none) n (doMainSession env lw p) := by
  have hbody : Accounted (fun a : Option String => a = none) n
      (andThen (WaitWithTimeout env lw 60000000000 env.setupSelect p) fun werr p1 =>
        andThen (must env werr p1) fun _ p2 =>
        andThen (runFlow env "prepare" p2) fun _ p3 =>
        andThen (runFlow env "navigation" p3) fun _ p4 =>
        andThen (runFlow env "install" p4) fun _ p5 =>
        andThen (runFlow env "login" p5) fun _ p6 =>
          let p7 := (p6.emit .succeeded).emit (.screenshot "final")
          match env.finalScreenshotErr with
          | none => (.ret none, p7)
          | some e => (.ret none, p7.emit (.screenshotFailed e))) := by
    refine andThen_accounted (wait_accounted env lw _ _ h hn) ?_
    intro werr p1 _ h1 n1
    refine andThen_accounted (must_accounted env werr h1 n1) ?_
    intro _ p2 _ h2 n2
    refine andThen_accounted (runFlow_accounted env _ h2 n2) ?_
    intro _ p3 _ h3 n3
    refine andThen_accounted (runFlow_accounted env _ h3 n3) ?_
    intro _ p4 _ h4 n4
    refine andThen_accounted (runFlow_accounted env _ h4 n4) ?_
    intro _ p5 _ h5 n5
    refine andThen_accounted (runFlow_accounted env _ h5 n5) ?_
    intro _ p6 _ h6 n6
    have h7 : Armed ((p6.emit .succeeded).emit (.screenshot "final")) :=
      emit_armed (emit_armed h6 _) _
    have n7 : ((p6.emit .succeeded).emit (.screenshot "final")).cleanupCalls = n := by
      rw [emit_cleanupCalls _ _ (by simp), emit_cleanupCalls _ _ (by simp), n6]
    cases env.finalScreenshotErr with
    | none => exact Or.inl ⟨none, rfl, rfl, h7, n7⟩
    | some e =>
      exact Or.inl ⟨none, rfl, rfl, emit_armed h7 _,
        by rw [emit_cleanupCalls _ _ (by simp), n7]⟩
  unfold doMainSession
  exact withDefer_emit_accounted .deleteSession (by simp) hbody

/-- What `main` adds after the part of `doMain` that follows the registration:
the deferred call of the callback, then `must` on the returned error. -/
theorem finish_cleanupCalls (env : Env) {x : Outcome (Option String) × Proc}
    (hx : Accounted (fun a : Option String => a = none) 0 x) :
    (andThen (withDefer (CleanupFunc.run env .driverCleanup) x)
      (fun err q => must env err q)).2.cleanupCalls = 1 := by
  rcases x with ⟨o, p⟩
  rcases hx with ⟨a, ho, hq, ha, hn⟩ | ⟨c, ho, hn⟩
  · simp only at ho hq ha hn
    subst ho
    subst hq
    obtain ⟨r, d, hr, hd, hc⟩ := ha
    simp only [withDefer, CleanupFunc.run, cleanup_eq env p r d hr hd, andThen, must]
    show List.count Event.cleanupCalled _ = 1
    have : List.count Event.cleanupCalled p.trace = 0 := hn
    simp [List.count_append, this]
  · simp only at ho hn
    subst ho
    simpa [withDefer, andThen] using hn

theorem mustAll_none (env : Env) (es : List (Option String)) (h : ∀ e ∈ es, e = none)
    (p : Proc) : mustAll env es p = (.ret (), p) := by
  induction es with
  | nil => rfl
  | cons e es ih =>
    have he : e = none := h e (List.mem_cons_self _ _)
    subst he
    simp only [mustAll, must, andThen]
    exact ih (fun x hx => h x (List.mem_cons_of_mem _ hx))

/-- An environment in which the process reaches the registration of the cleanup
callback: the API key is given and nothing fails up to line 187. -/
theorem doMain_registers (env : Env) (hkey : env.apiKey ≠ "") (h1 : env.removeTmpErr = none)
    (h2 : env.removeScreenshotsErr = none) (h3 : env.getwdErr = none)
    (h4 : ∀ e ∈ prepResults env, e = none) (h5 : env.startErr = none) :
    doMain env Proc.start =
      withDefer (CleanupFunc.run env .driverCleanup)
        (doMainRegistered env ⟨env.watchAddr, "Setup done"⟩
          { r := some { driver := none, cleanup := some .driverCleanup,
                        readyForScreenshot := false },
            cleanups := [.driverCleanup],
            logWatches := (makeLogWatch Slice.empty env.watchAddr "Setup done").2,
            cancelled := false,
            trace := [.driverStarted] }) := by
  unfold doMain
  rw [if_neg hkey]
  simp only [h1, h2, h3, h5, must, andThen, mustAll_none env _ h4]
  rfl

/-- C5. Whenever the process gets as far as registering the cleanup callback, the
callback has been called exactly once when `main` ends, whichever way it
ends: `doMain` returning nil, `doMain` returning an error after the
registration (lines 192 and 214), `must` called with an error inside `doMain`
(timeout of the setup watch, failure of a phase), or the session attempts
exhausted.  The crash watcher calling `gocleanup.Exit(1)` on a process in
which the callback is registered and was not called yet calls it exactly
once too. -/
theorem cleanup_called_exactly_once (env : Env) (hkey : env.apiKey ≠ "")
    (h1 : env.removeTmpErr = none) (h2 : env.removeScreenshotsErr = none)
    (h3 : env.getwdErr = none) (h4 : ∀ e ∈ prepResults env, e = none)
    (h5 : env.startErr = none) :
    (main env).2.cleanupCalls = 1 ∧
    (∀ (e : String) (p : Proc) (r : Runner), p.r = some r → p.cleanups = [.driverCleanup] →
      p.cleanupCalls = 0 → (crashWatcher env (some e) p).2.cleanupCalls = 1) := by
  refine ⟨?_, ?_⟩
  · unfold main
    rw [doMain_registers env hkey h1 h2 h3 h4 h5]
    unfold doMainRegistered
    cases hel : env.electronErr with
    | some e => simp [withDefer, CleanupFunc.run, cleanup, andThen, Proc.emit, Proc.cleanupCalls]
    | none =>
      cases hnd : env.newDriverErr with
      | some e =>
        simp [withDefer, CleanupFunc.run, cleanup, andThen, Proc.emit, Proc.cleanupCalls]
      | none =>
        simp only
        apply finish_cleanupCalls
        refine andThen_accounted (acquireSession_accounted env ⟨_, _, rfl, rfl, rfl⟩ rfl) ?_
        intro _ p2 _ hp2 hn2
        exact doMainSession_accounted env _ hp2 hn2
  · intro e p r hr hc h0
    have hc0 : (p.emit (.crashed e)).cleanupCalls = 0 := by
      rw [emit_cleanupCalls _ _ (by simp), h0]
    cases hd : r.driver with
    | none =>
      simp only [crashWatcher, gocleanupExit, emit_cleanups, hc, runCleanups, CleanupFunc.run,
        cleanup_nil_driver env (p.emit (.crashed e)) r (by simpa using hr) hd, andThen]
      rw [emit_cleanupCalls_self, hc0]
    | some d =>
      obtain ⟨q, hq, hqc⟩ := gocleanupExit_accounted env 1
        (emit_armed ⟨r, d, hr, hd, hc⟩ (.crashed e))
      simp only [crashWatcher, hq]
      rw [hqc, hc0]

/-- Witnesses C5 on the run in which electron cannot be located (return at line 192). -/
theorem cleanup_called_exactly_once_witness :
    Env.noElectron.apiKey ≠ "" ∧ Env.noElectron.removeTmpErr = none ∧
    Env.noElectron.removeScreenshotsErr = none ∧ Env.noElectron.getwdErr = none ∧
    (∀ e ∈ prepResults Env.noElectron, e = none) ∧ Env.noElectron.startErr = none ∧
    ((main Env.noElectron).2.cleanupCalls = 1 ∧
    (∀ (e : String) (p : Proc) (r : Runner), p.r = some r → p.cleanups = [.driverCleanup] →
      p.cleanupCalls = 0 → (crashWatcher Env.noElectron (some e) p).2.cleanupCalls = 1)) :=
  ⟨by decide, rfl, rfl, rfl, by decide, rfl,
    cleanup_called_exactly_once Env.noElectron (by decide) rfl rfl rfl (by decide) rfl⟩

/-- On the error return at line 192 the driver is still nil: the deferred call of
the callback panics on `r.driver.CloseWindow()`, so the process dies with
status 2, the error does not reach `must`, and `chromeDriverCancel` is not
called. -/
theorem error_return_panics_in_deferred_cleanup :
    main Env.noElectron =
      (.panic, { r := some { driver := none, cleanup := some .driverCleanup,
                             readyForScreenshot := false },
                 cleanups := [.driverCleanup],
                 logWatches := (makeLogWatch Slice.empty 1 "Setup done").2,
                 cancelled := false,
                 trace := [.driverStarted, .cleanupCalled] }) ∧
    exitStatus (main Env.noElectron).1 = 2 :=
  ⟨rfl, rfl⟩

end Itch
